import Mathlib

/-!
# Shard worker of the pub-sub broker

Shallow embedding of the event loop `topicHandler.run` of package `pubsubScalable`
(`src/pubsubScalable/pubsubScalable.go`); the loop `PubSub.run` of package `pubsub`
(`src/pubsub/pubsub.go`) has the same switch body over the same state.

* A buffered Go channel `chan interface{}` is a `Chan`: the capacity given to `make`
  and the FIFO buffer of the values sent and not yet received.
* A Go `map[string]V` is an association list `List (String × V)` read through `mapGet`
  (first binding of the key), written through `mapSet`, `mapDelete` and `mapModify`
  (`mapModify` is the in-place mutation of a value of reference type held in the map).
* `maxOutStandingMessages` is a `Nat`: `make(chan interface{}, n)` is only defined
  for `n ≥ 0`.
* A `request` carries the payload its constructor in `PubSub.Subscribe`, `UnSubscribe`,
  `Publish`, `Get` and `Close` gives it; the reply sent on `r.result` is the second
  component of `handle`.
* The event queue of a worker is an `EventQueue`; `eventLoop` is the `range` loop over it and
  `runFrom` adds the deferred cleanup.
* The broker `PubSub` holds the event queues and the package variable `maxWorkers`; an
  operation that panics in Go (division by zero, index out of range, send on a closed
  channel, nil dereference) has the value `none`.
* `hash/fnv` is the 32-bit FNV-1a hash of the Go standard library (`New32a`, `sum32aWrite`).
* The handlers `getMsg` and `publish` of `src/main.go` are `Main.getMsg` and `Main.publish`,
  over a response writer that records status code and body.
* `Pubsub.handle` is the loop body of package `pubsub`; `Pubsub.calls` and `shardedCalls` run a
  sequence of calls, each processed before the next, on the single-worker and on the sharded
  broker.
-/

namespace PubSubScalable

/-! ## Data model -/

/-- Publisher message `PubMessage`; `Published` is the publish instant. -/
structure PubMessage where
  Message : String
  Published : Nat
deriving DecidableEq, Repr

/-- The sentinel errors `ErrSubNotFound`, `ErrTopicNotFound`, `ErrNoNewMessages`. -/
inductive Error where
  | ErrSubNotFound
  | ErrTopicNotFound
  | ErrNoNewMessages
deriving DecidableEq, Repr

/-- Response event struct: `value` is `nil` (`none`) or a message, `err` is `nil` or an error. -/
structure response where
  value : Option PubMessage
  err : Option Error
deriving DecidableEq, Repr

/-- Request event, one constructor per action tag `ADD_SUB`, `DEL_SUB`, `GET_MSG`, `POST_MSG`,
`CLOSE_QUEUE`, with `key` (topic) and `value` (subscriber name or message). -/
inductive request where
  | ADD_SUB (key : String) (value : String)
  | DEL_SUB (key : String) (value : String)
  | GET_MSG (key : String) (value : String)
  | POST_MSG (key : String) (value : PubMessage)
  | CLOSE_QUEUE
deriving DecidableEq, Repr

/-- Buffered channel: capacity fixed by `make`, buffer in FIFO order (head is received next). -/
structure Chan where
  cap : Nat
  buf : List PubMessage
deriving DecidableEq, Repr

/-- Channel creation `make(chan interface{}, n)`. -/
def Chan.make (n : Nat) : Chan := { cap := n, buf := [] }

/-- Non-blocking send `select { case ch <- v: default: }` with no receiver waiting: the value is
buffered when the buffer has room and discarded otherwise. -/
def Chan.trySend (ch : Chan) (v : PubMessage) : Chan :=
  if ch.buf.length < ch.cap then { ch with buf := ch.buf ++ [v] } else ch

/-- Non-blocking receive `select { case v := <-ch: ... default: ... }` with no sender waiting:
the head of the buffer and the channel without it, or `none` on an empty buffer. -/
def Chan.tryRecv (ch : Chan) : Option (PubMessage × Chan) :=
  match ch.buf with
  | [] => none
  | v :: rest => some (v, { ch with buf := rest })

/-! ## Go maps with string keys -/

/-- Map read `v, found := m[k]`. -/
def mapGet {V : Type} : List (String × V) → String → Option V
  | [], _ => none
  | (k', v) :: m, k => if k' = k then some v else mapGet m k

/-- Map write `m[k] = v`: replaces the binding of `k` or adds one. -/
def mapSet {V : Type} : List (String × V) → String → V → List (String × V)
  | [], k, v => [(k, v)]
  | (k', v') :: m, k, v => if k' = k then (k, v) :: m else (k', v') :: mapSet m k v

/-- Map removal `delete(m, k)`. -/
def mapDelete {V : Type} (m : List (String × V)) (k : String) : List (String × V) :=
  m.filter (fun e => decide (e.1 ≠ k))

/-- In-place mutation of the value bound to `k` (a map or a channel); nothing when `k` is absent. -/
def mapModify {V : Type} (m : List (String × V)) (k : String) (f : V → V) : List (String × V) :=
  m.map (fun e => if e.1 = k then (e.1, f e.2) else e)

/-- Mutation of every value of the map, as done by a `range` loop over it. -/
def mapForAll {V : Type} (m : List (String × V)) (f : V → V) : List (String × V) :=
  m.map (fun e => (e.1, f e.2))

/-! ## Topic manager -/

/-- Topic manager `topicHandler`: `topicMap` is topic ↦ subscriber ↦ mailbox channel. -/
structure topicHandler where
  topicMap : List (String × List (String × Chan))
  maxOutStandingMessages : Nat
deriving DecidableEq, Repr

/-- State of a worker when its loop starts: `th.topicMap = make(map...)`. -/
def newTopicHandler (maxOutStandingMessages : Nat) : topicHandler :=
  { topicMap := [], maxOutStandingMessages := maxOutStandingMessages }

/-- One iteration of the event loop of `run`: the `switch r.action` body. Returns the new state
and the response sent on `r.result` (only `GET_MSG` sends one). `CLOSE_QUEUE` closes the event
queue the loop ranges over and does not touch the topic map; the statements below about request
sequences are for sequences without it. -/
def handle (th : topicHandler) : request → topicHandler × Option response
  | .ADD_SUB key value =>
    let ch := Chan.make th.maxOutStandingMessages
    let tm :=
      match mapGet th.topicMap key with
      | some _ => th.topicMap
      | none => mapSet th.topicMap key []
    ({ th with topicMap := mapModify tm key (fun subMap => mapSet subMap value ch) }, none)
  | .DEL_SUB key value =>
    match mapGet th.topicMap key with
    | some _ =>
      ({ th with topicMap := mapModify th.topicMap key (fun subMap => mapDelete subMap value) },
        none)
    | none => (th, none)
  | .POST_MSG key value =>
    ({ th with topicMap :=
        mapModify th.topicMap key (fun subMap => mapForAll subMap (fun ch => ch.trySend value)) },
      none)
  | .GET_MSG key value =>
    match mapGet th.topicMap key with
    | some subMap =>
      match mapGet subMap value with
      | some subCh =>
        match subCh.tryRecv with
        | some (v, subCh') =>
          ({ th with topicMap :=
              mapModify th.topicMap key (fun sm => mapModify sm value (fun _ => subCh')) },
            some { value := some v, err := none })
        | none => (th, some { value := none, err := some Error.ErrNoNewMessages })
      | none => (th, some { value := none, err := some Error.ErrSubNotFound })
    | none => (th, some { value := none, err := some Error.ErrTopicNotFound })
  | .CLOSE_QUEUE => (th, none)

/-- State after one request. -/
def step (th : topicHandler) (r : request) : topicHandler := (handle th r).1

/-- Response to a `GET_MSG` request on `(topic, sub)` in state `th`. -/
def getMsg (th : topicHandler) (topic sub : String) : Option response :=
  (handle th (.GET_MSG topic sub)).2

/-- State after the requests `rs`, processed in queue order. -/
def stepAll (th : topicHandler) (rs : List request) : topicHandler := rs.foldl step th

/-- Responses sent while processing `rs` in queue order, oldest first. -/
def responses (th : topicHandler) : List request → List response
  | [] => []
  | r :: rs =>
    match (handle th r).2 with
    | some resp => resp :: responses (handle th r).1 rs
    | none => responses (handle th r).1 rs

/-- Mailbox of subscriber `sub` of `topic`, when registered. -/
def mailbox (th : topicHandler) (topic sub : String) : Option Chan :=
  (mapGet th.topicMap topic).bind (fun subMap => mapGet subMap sub)

/-- Whether `topic` is a key of the topic map. -/
def hasTopic (th : topicHandler) (topic : String) : Bool :=
  (mapGet th.topicMap topic).isSome

/-- Channel after a receive: the buffer without its head (unchanged when empty). -/
def Chan.afterRecv (ch : Chan) : Chan := { ch with buf := ch.buf.tail }

/-- Messages of the `POST_MSG` requests on `topic` in `rs`, in queue order. -/
def publishedTo (topic : String) : List request → List PubMessage
  | [] => []
  | .POST_MSG key value :: rs =>
    if key = topic then value :: publishedTo topic rs else publishedTo topic rs
  | _ :: rs => publishedTo topic rs

/-- Response carrying message `v` with a nil error. -/
def response.ok (v : PubMessage) : response := { value := some v, err := none }

/-- Response carrying the error `e` and no message. -/
def response.fail (e : Error) : response := { value := none, err := some e }

/-! ## The event loop and its queue -/

/-- Event queue of a worker, `chan *request`: the requests sent and not yet received, oldest
first, and whether the channel has been closed. A send on a full queue (`REQUEST_QUEUE_SIZE`
pending requests) waits for room and then succeeds, so the buffer has no bound here. -/
structure EventQueue where
  buf : List request
  closed : Bool
deriving DecidableEq, Repr

/-- Channel send `ch <- r`: appends to the buffer; a send on a closed channel panics (`none`). -/
def EventQueue.send (q : EventQueue) (r : request) : Option EventQueue :=
  if q.closed then none else some { q with buf := q.buf ++ [r] }

/-- How the loop `for r := range th.eventQueue` stands once the pending requests are received:
it has exited (queue closed and drained), it waits for the next request (queue still open), or
it has panicked (`close` of a closed channel). -/
inductive LoopEnd where
  | exited
  | blocked
  | panicked
deriving DecidableEq, Repr

/-- Outcome of the loop: worker state, requests received, responses sent, and how it stands. -/
structure LoopResult where
  worker : topicHandler
  received : List request
  sent : List response
  ending : LoopEnd
deriving DecidableEq, Repr

/-- The loop `for r := range th.eventQueue { switch r.action ... }` over the requests `pending`
in the queue, `closed` telling whether the queue is closed already. `CLOSE_QUEUE` closes the
queue: the loop then still receives what is buffered and exits when the buffer is drained. -/
def eventLoop (th : topicHandler) (closed : Bool) : List request → LoopResult
  | [] =>
    { worker := th, received := [], sent := [],
      ending := if closed then LoopEnd.exited else LoopEnd.blocked }
  | .CLOSE_QUEUE :: pending =>
    if closed then
      { worker := th, received := [.CLOSE_QUEUE], sent := [], ending := LoopEnd.panicked }
    else
      let res := eventLoop th true pending
      { res with received := .CLOSE_QUEUE :: res.received }
  | r :: pending =>
    let res := eventLoop (handle th r).1 closed pending
    { res with received := r :: res.received, sent := (handle th r).2.toList ++ res.sent }

/-- Deferred cleanup of `run`: for every topic, every subscriber channel is closed and deleted
from the subscriber map, then the topic is deleted from the topic map. -/
def cleanup (th : topicHandler) : topicHandler :=
  { th with topicMap :=
      (th.topicMap.foldl
        (fun tm topic =>
          mapDelete
            (mapModify tm topic.1 (fun subMap =>
              subMap.foldl (fun sm sub => mapDelete sm sub.1) subMap))
            topic.1)
        th.topicMap) }

/-- The loop from worker state `th` followed by the deferred cleanup, which runs when the
function returns or panics. -/
def runFrom (th : topicHandler) (closed : Bool) (pending : List request) : LoopResult :=
  let res := eventLoop th closed pending
  match res.ending with
  | LoopEnd.blocked => res
  | _ => { res with worker := cleanup res.worker }

/-- The goroutine `th.run()`: `th.topicMap = make(...)`, then the loop over the event queue. -/
def run (th : topicHandler) (pending : List request) : LoopResult :=
  runFrom { th with topicMap := [] } false pending

/-! ## Shard router and broker -/

/-- Bytes of a Go string, `[]byte(topic)`: its UTF-8 encoding. -/
def bytesOf (s : String) : List Nat :=
  s.data.flatMap (fun c => (String.utf8EncodeChar c).map UInt8.toNat)

/-- Offset basis `offset32` of `hash/fnv`. -/
def offset32 : Nat := 2166136261

/-- Multiplier `prime32` of `hash/fnv`. -/
def prime32 : Nat := 16777619

/-- Hash state made by `fnv.New32a()`. -/
def New32a : Nat := offset32

/-- Method `Write` of the 32-bit FNV-1a hash: `for _, c := range data { hash ^= sum32a(c);
hash *= prime32 }` in `uint32` arithmetic. -/
def sum32aWrite (hash : Nat) : List Nat → Nat
  | [] => hash
  | c :: data => sum32aWrite (((hash ^^^ c) * prime32) % 2 ^ 32) data

/-- Shard index `getHashIdx`: `h.Sum32() % maxWorkers` for the package variable `maxWorkers`;
the integer division by zero panics (`none`). -/
def getHashIdx (maxWorkers : Nat) (topic : String) : Option Nat :=
  let h := sum32aWrite New32a (bytesOf topic)
  if maxWorkers = 0 then none else some (h % maxWorkers)

/-- Spec definition of the 32-bit FNV-1a hash: from the offset basis 2166136261, for each byte
`b` in order, `h := ((h xor b) * 16777619) mod 2^32`. -/
def FNV1a32 (data : List Nat) : Nat :=
  data.foldl (fun h b => ((h ^^^ b) * 16777619) % 4294967296) 2166136261

/-- Broker `PubSub` with the package variable `maxWorkers` that `NewPubSub` sets. -/
structure PubSub where
  topicHandlerChannelLst : List EventQueue
  maxWorkers : Nat
deriving DecidableEq, Repr

/-- Constructor `NewPubSub` on a machine where `runtime.NumCPU()` is `numCPU`:
`maxWorkers = uint32(runtime.NumCPU() - 1)`, one event queue per worker; the second component
is the workers started by `newTopicHandler`. -/
def NewPubSub (numCPU : Int) (maxOutStandingMsgs : Nat) : PubSub × List topicHandler :=
  let maxWorkers := ((numCPU - 1) % 2 ^ 32).toNat
  ({ topicHandlerChannelLst := List.replicate maxWorkers { buf := [], closed := false },
     maxWorkers := maxWorkers },
   List.replicate maxWorkers (newTopicHandler maxOutStandingMsgs))

/-- Statement `pb.topicHandlerChannelLst[getHashIdx(topicName)] <- r` shared by the four
operations: panics (`none`) on a division by zero, an index out of range or a closed queue. -/
def PubSub.sendTo (pb : PubSub) (topicName : String) (r : request) : Option PubSub :=
  match getHashIdx pb.maxWorkers topicName with
  | none => none
  | some idx =>
    match pb.topicHandlerChannelLst[idx]? with
    | none => none
    | some q =>
      match q.send r with
      | none => none
      | some q' => some { pb with topicHandlerChannelLst := pb.topicHandlerChannelLst.set idx q' }

/-- Operation `Subscribe`. -/
def PubSub.Subscribe (pb : PubSub) (topicName subscriberName : String) : Option PubSub :=
  pb.sendTo topicName (.ADD_SUB topicName subscriberName)

/-- Operation `UnSubscribe`. -/
def PubSub.UnSubscribe (pb : PubSub) (topicName subscriberName : String) : Option PubSub :=
  pb.sendTo topicName (.DEL_SUB topicName subscriberName)

/-- Operation `Publish`. -/
def PubSub.Publish (pb : PubSub) (topicName : String) (msg : PubMessage) : Option PubSub :=
  pb.sendTo topicName (.POST_MSG topicName msg)

/-- Operation `Get`, up to the send of the request; the reply it then waits for is the response
of the worker to that `GET_MSG`. -/
def PubSub.Get (pb : PubSub) (topicName subscriberName : String) : Option PubSub :=
  pb.sendTo topicName (.GET_MSG topicName subscriberName)

/-- Loop of `Close`: `ch <- &request{action: CLOSE_QUEUE}` for every queue in turn. -/
def closeAll : List EventQueue → Option (List EventQueue)
  | [] => some []
  | ch :: rest =>
    match ch.send .CLOSE_QUEUE with
    | none => none
    | some ch' =>
      match closeAll rest with
      | none => none
      | some rest' => some (ch' :: rest')

/-- Operation `Close`. -/
def PubSub.Close (pb : PubSub) : Option PubSub :=
  match closeAll pb.topicHandlerChannelLst with
  | none => none
  | some chs => some { pb with topicHandlerChannelLst := chs }

/-! ## HTTP handlers of `main.go` -/

/-- Status code `http.StatusOK`. -/
def Main.StatusOK : Nat := 200

/-- Status code `http.StatusNoContent`. -/
def Main.StatusNoContent : Nat := 204

/-- Status code `http.StatusBadRequest`. -/
def Main.StatusBadRequest : Nat := 400

/-- Status code `http.StatusNotFound`. -/
def Main.StatusNotFound : Nat := 404

/-- What the handler has put in the `http.ResponseWriter`: the headers, the status code
(200 until one is written) and the body. -/
structure Main.ResponseWriter where
  Header : List (String × List String)
  wroteHeader : Bool
  Code : Nat
  Body : String
deriving DecidableEq, Repr

/-- Fresh response writer, as `httptest.NewRecorder()`. -/
def Main.NewRecorder : Main.ResponseWriter :=
  { Header := [], wroteHeader := false, Code := 200, Body := "" }

/-- Method `WriteHeader`: only the first status code written counts. -/
def Main.ResponseWriter.WriteHeader (w : Main.ResponseWriter) (code : Nat) :
    Main.ResponseWriter :=
  if w.wroteHeader then w else { w with wroteHeader := true, Code := code }

/-- Method `Write`: writes status 200 first when no status was written. -/
def Main.ResponseWriter.Write (w : Main.ResponseWriter) (data : String) : Main.ResponseWriter :=
  let w' := w.WriteHeader 200
  { w' with Body := w'.Body ++ data }

/-- Incoming request as the handlers read it: headers and body. -/
structure Main.Request where
  Header : List (String × List String)
  Body : String
deriving DecidableEq, Repr

/-- Handler `getMsg` given the result `(msg, err)` of `pb.Get`; `marshal` is the JSON encoding
of `encoding/json`, `none` when it fails. The result is `none` when the handler panics
(dereference of a nil message). -/
def Main.getMsg (marshal : PubMessage → Option String) (w : Main.ResponseWriter)
    (msg : Option PubMessage) (err : Option Error) : Option Main.ResponseWriter :=
  let w₁ := { w with Header := mapSet w.Header "Content-Type" ["application/json"] }
  match err with
  | some e =>
    if e = Error.ErrSubNotFound ∨ e = Error.ErrTopicNotFound then
      some (w₁.WriteHeader Main.StatusNotFound)
    else if e = Error.ErrNoNewMessages then
      some (w₁.WriteHeader Main.StatusNoContent)
    else some w₁
  | none =>
    match msg with
    | none => none
    | some m =>
      match marshal m with
      | some body => some (w₁.Write (body ++ "\n"))
      | none => some (w₁.WriteHeader Main.StatusBadRequest)

/-- Handler `publish`; `decode` is the JSON decoding of the body, `now` is `time.Now()`. The
result is `none` when the handler panics; otherwise the response and the call of `pb.Publish`
it made, if any, as topic and message. -/
def Main.publish (decode : String → Option PubMessage) (now : Nat) (w : Main.ResponseWriter)
    (r : Main.Request) (topic_name : String) :
    Option (Main.ResponseWriter × Option (String × PubMessage)) :=
  match (mapGet r.Header "Content-Type").getD [] with
  | [] => none
  | contentType :: _ =>
    if contentType ≠ "application/json" then
      some (w.WriteHeader Main.StatusBadRequest, none)
    else
      match decode r.Body with
      | none => some (w.WriteHeader Main.StatusBadRequest, none)
      | some req =>
        some (w.WriteHeader Main.StatusNoContent,
          some (topic_name, { req with Published := now }))

/-! ## Calls processed one at a time, on the sharded and on the single-worker broker -/

/-- Call of one of the four operations `Subscribe`, `UnSubscribe`, `Publish`, `Get`, which both
packages `pubsub` and `pubsubScalable` offer with the same parameters. -/
inductive Call where
  | Subscribe (topicName : String) (subscriberName : String)
  | UnSubscribe (topicName : String) (subscriberName : String)
  | Publish (topicName : String) (msg : PubMessage)
  | Get (topicName : String) (subscriberName : String)
deriving DecidableEq, Repr

/-- Topic a call is made on. -/
def Call.topicName : Call → String
  | .Subscribe topicName _ => topicName
  | .UnSubscribe topicName _ => topicName
  | .Publish topicName _ => topicName
  | .Get topicName _ => topicName

/-- Request the operation builds: `&request{ADD_SUB, topicName, subscriberName, nil}` and so
on, the same in both packages. -/
def Call.toRequest : Call → request
  | .Subscribe topicName subscriberName => .ADD_SUB topicName subscriberName
  | .UnSubscribe topicName subscriberName => .DEL_SUB topicName subscriberName
  | .Publish topicName msg => .POST_MSG topicName msg
  | .Get topicName subscriberName => .GET_MSG topicName subscriberName

/-- What `Get` returns from the response `r := <-resp`, the same in both packages:
`(nil, r.err)` when `r.err != nil`, else `(r.value, r.err)`. -/
def getReturn (r : response) : Option PubMessage × Option Error :=
  match r.err with
  | some e => (none, some e)
  | none => (r.value, none)

/-- Broker `PubSub` of package `pubsub`, whose single goroutine `run` owns the topic map. -/
structure Pubsub.PubSub where
  topicMap : List (String × List (String × Chan))
  maxOutStandingMessages : Nat
deriving DecidableEq, Repr

/-- Constructor `NewPubSub` of package `pubsub`, with the topic map `run` starts from. -/
def Pubsub.NewPubSub (maxOutStandingMsgs : Nat) : Pubsub.PubSub :=
  { topicMap := [], maxOutStandingMessages := maxOutStandingMsgs }

/-- One iteration of the event loop of `run` in package `pubsub`: the `switch r.action` body of
`src/pubsub/pubsub.go`, with the response sent on `r.result`. -/
def Pubsub.handle (pb : Pubsub.PubSub) : request → Pubsub.PubSub × Option response
  | .ADD_SUB key value =>
    let ch := Chan.make pb.maxOutStandingMessages
    let tm :=
      match mapGet pb.topicMap key with
      | some _ => pb.topicMap
      | none => mapSet pb.topicMap key []
    ({ pb with topicMap := mapModify tm key (fun subMap => mapSet subMap value ch) }, none)
  | .DEL_SUB key value =>
    match mapGet pb.topicMap key with
    | some _ =>
      ({ pb with topicMap := mapModify pb.topicMap key (fun subMap => mapDelete subMap value) },
        none)
    | none => (pb, none)
  | .POST_MSG key value =>
    ({ pb with topicMap :=
        mapModify pb.topicMap key (fun subMap => mapForAll subMap (fun ch => ch.trySend value)) },
      none)
  | .GET_MSG key value =>
    match mapGet pb.topicMap key with
    | some subMap =>
      match mapGet subMap value with
      | some subCh =>
        match subCh.tryRecv with
        | some (v, subCh') =>
          ({ pb with topicMap :=
              mapModify pb.topicMap key (fun sm => mapModify sm value (fun _ => subCh')) },
            some { value := some v, err := none })
        | none => (pb, some { value := none, err := some Error.ErrNoNewMessages })
      | none => (pb, some { value := none, err := some Error.ErrSubNotFound })
    | none => (pb, some { value := none, err := some Error.ErrTopicNotFound })
  | .CLOSE_QUEUE => (pb, none)

/-- One call on the single-worker broker, processed before the next call is issued: the request
goes through `reqCh` to `run`; the result is what the call returns (`none` for the operations
without a result). -/
def Pubsub.call (pb : Pubsub.PubSub) (c : Call) :
    Pubsub.PubSub × Option (Option PubMessage × Option Error) :=
  ((Pubsub.handle pb c.toRequest).1, (Pubsub.handle pb c.toRequest).2.map getReturn)

/-- Results of a sequence of calls on the single-worker broker. -/
def Pubsub.calls (pb : Pubsub.PubSub) :
    List Call → List (Option (Option PubMessage × Option Error))
  | [] => []
  | c :: cs => (Pubsub.call pb c).2 :: Pubsub.calls (Pubsub.call pb c).1 cs

/-- One call on the sharded broker, processed before the next call is issued: the request goes
to the queue at `getHashIdx(topicName)` and the worker of that queue handles it; `workers` are
the states of the workers, in the order of `topicHandlerChannelLst`. The value is `none` when
the call panics (division by zero or index out of range). -/
def shardedCall (maxWorkers : Nat) (workers : List topicHandler) (c : Call) :
    Option (List topicHandler × Option (Option PubMessage × Option Error)) :=
  match getHashIdx maxWorkers c.topicName with
  | none => none
  | some idx =>
    match workers[idx]? with
    | none => none
    | some th =>
      some (workers.set idx (handle th c.toRequest).1, (handle th c.toRequest).2.map getReturn)

/-- Results of a sequence of calls on the sharded broker. -/
def shardedCalls (maxWorkers : Nat) :
    List topicHandler → List Call → Option (List (Option (Option PubMessage × Option Error)))
  | _, [] => some []
  | workers, c :: cs =>
    match shardedCall maxWorkers workers c with
    | none => none
    | some (workers', out) =>
      match shardedCalls maxWorkers workers' cs with
      | none => none
      | some outs => some (out :: outs)

/-! ## Lemmas on maps -/

section MapLemmas

variable {V : Type}

theorem mapGet_cons (k' : String) (v : V) (m : List (String × V)) (k : String) :
    mapGet ((k', v) :: m) k = if k' = k then some v else mapGet m k := rfl

theorem mapSet_cons (k' : String) (v' : V) (m : List (String × V)) (k : String) (v : V) :
    mapSet ((k', v') :: m) k v = if k' = k then (k, v) :: m else (k', v') :: mapSet m k v := rfl

theorem mapDelete_cons (k' : String) (v' : V) (m : List (String × V)) (k : String) :
    mapDelete ((k', v') :: m) k = if k' = k then mapDelete m k else (k', v') :: mapDelete m k := by
  by_cases h : k' = k <;> simp [mapDelete, List.filter_cons, h]

theorem mapModify_cons (k' : String) (v' : V) (m : List (String × V)) (k : String) (f : V → V) :
    mapModify ((k', v') :: m) k f
      = if k' = k then (k', f v') :: mapModify m k f else (k', v') :: mapModify m k f := by
  by_cases h : k' = k
  · simp only [mapModify, List.map_cons, h, if_true]
  · simp only [mapModify, List.map_cons, h, if_false]

theorem mapForAll_cons (k' : String) (v' : V) (m : List (String × V)) (f : V → V) :
    mapForAll ((k', v') :: m) f = (k', f v') :: mapForAll m f := rfl

theorem mapGet_mapSet_self (m : List (String × V)) (k : String) (v : V) :
    mapGet (mapSet m k v) k = some v := by
  induction m with
  | nil => simp [mapSet, mapGet]
  | cons e m ih =>
    obtain ⟨k', v'⟩ := e
    rw [mapSet_cons]
    by_cases h : k' = k
    · rw [if_pos h, mapGet_cons, if_pos rfl]
    · rw [if_neg h, mapGet_cons, if_neg h, ih]

theorem mapGet_mapSet_ne (m : List (String × V)) {k k' : String} (v : V) (h : k ≠ k') :
    mapGet (mapSet m k v) k' = mapGet m k' := by
  induction m with
  | nil => simp [mapSet, mapGet, h]
  | cons e m ih =>
    obtain ⟨k₀, v₀⟩ := e
    rw [mapSet_cons]
    by_cases h₀ : k₀ = k
    · have h₁ : ¬ k₀ = k' := fun e => h (h₀.symm.trans e)
      rw [if_pos h₀, mapGet_cons, if_neg h, mapGet_cons, if_neg h₁]
    · rw [if_neg h₀, mapGet_cons, mapGet_cons, ih]

theorem mapGet_mapDelete_self (m : List (String × V)) (k : String) :
    mapGet (mapDelete m k) k = none := by
  induction m with
  | nil => simp [mapDelete, mapGet]
  | cons e m ih =>
    obtain ⟨k', v'⟩ := e
    rw [mapDelete_cons]
    by_cases h : k' = k
    · rw [if_pos h, ih]
    · rw [if_neg h, mapGet_cons, if_neg h, ih]

theorem mapGet_mapDelete_ne (m : List (String × V)) {k k' : String} (h : k ≠ k') :
    mapGet (mapDelete m k) k' = mapGet m k' := by
  induction m with
  | nil => simp [mapDelete, mapGet]
  | cons e m ih =>
    obtain ⟨k₀, v₀⟩ := e
    rw [mapDelete_cons]
    by_cases h₀ : k₀ = k
    · have h₁ : ¬ k₀ = k' := fun e => h (h₀.symm.trans e)
      rw [if_pos h₀, mapGet_cons, if_neg h₁, ih]
    · rw [if_neg h₀, mapGet_cons, mapGet_cons, ih]

theorem mapGet_mapModify_self (m : List (String × V)) (k : String) (f : V → V) :
    mapGet (mapModify m k f) k = (mapGet m k).map f := by
  induction m with
  | nil => simp [mapModify, mapGet]
  | cons e m ih =>
    obtain ⟨k', v'⟩ := e
    rw [mapModify_cons]
    by_cases h : k' = k
    · rw [if_pos h, mapGet_cons, if_pos h, mapGet_cons, if_pos h, Option.map_some']
    · rw [if_neg h, mapGet_cons, if_neg h, mapGet_cons, if_neg h, ih]

theorem mapGet_mapModify_ne (m : List (String × V)) {k k' : String} (f : V → V) (h : k ≠ k') :
    mapGet (mapModify m k f) k' = mapGet m k' := by
  induction m with
  | nil => simp [mapModify, mapGet]
  | cons e m ih =>
    obtain ⟨k₀, v₀⟩ := e
    rw [mapModify_cons]
    by_cases h₀ : k₀ = k
    · have h₁ : ¬ k₀ = k' := fun e => h (h₀.symm.trans e)
      rw [if_pos h₀, mapGet_cons, if_neg h₁, mapGet_cons, if_neg h₁, ih]
    · rw [if_neg h₀, mapGet_cons, mapGet_cons, ih]

theorem mapGet_mapForAll (m : List (String × V)) (f : V → V) (k : String) :
    mapGet (mapForAll m f) k = (mapGet m k).map f := by
  induction m with
  | nil => simp [mapForAll, mapGet]
  | cons e m ih =>
    obtain ⟨k', v'⟩ := e
    rw [mapForAll_cons, mapGet_cons, mapGet_cons]
    by_cases h : k' = k
    · rw [if_pos h, if_pos h, Option.map_some']
    · rw [if_neg h, if_neg h, ih]

theorem mapModify_absent (m : List (String × V)) (k : String) (f : V → V)
    (h : mapGet m k = none) : mapModify m k f = m := by
  induction m with
  | nil => simp [mapModify]
  | cons e m ih =>
    obtain ⟨k', v'⟩ := e
    rw [mapGet_cons] at h
    by_cases h' : k' = k
    · rw [if_pos h'] at h
      cases h
    · rw [if_neg h'] at h
      rw [mapModify_cons, if_neg h', ih h]

end MapLemmas

/-! ## The four outcomes of `GET_MSG` -/

theorem handle_GET_MSG_topic_absent (th : topicHandler) (T S : String)
    (hT : mapGet th.topicMap T = none) :
    handle th (.GET_MSG T S)
      = (th, some { value := none, err := some Error.ErrTopicNotFound }) := by
  simp only [handle, hT]

theorem handle_GET_MSG_sub_absent (th : topicHandler) (T S : String)
    (subMap : List (String × Chan)) (hT : mapGet th.topicMap T = some subMap)
    (hS : mapGet subMap S = none) :
    handle th (.GET_MSG T S)
      = (th, some { value := none, err := some Error.ErrSubNotFound }) := by
  simp only [handle, hT, hS]

theorem handle_GET_MSG_empty (th : topicHandler) (T S : String)
    (subMap : List (String × Chan)) (subCh : Chan) (hT : mapGet th.topicMap T = some subMap)
    (hS : mapGet subMap S = some subCh) (hb : subCh.buf = []) :
    handle th (.GET_MSG T S)
      = (th, some { value := none, err := some Error.ErrNoNewMessages }) := by
  simp only [handle, hT, hS, Chan.tryRecv, hb]

theorem handle_GET_MSG_recv (th : topicHandler) (T S : String)
    (subMap : List (String × Chan)) (subCh : Chan) (v : PubMessage) (rest : List PubMessage)
    (hT : mapGet th.topicMap T = some subMap)
    (hS : mapGet subMap S = some subCh) (hb : subCh.buf = v :: rest) :
    handle th (.GET_MSG T S)
      = ({ th with topicMap :=
            (mapModify th.topicMap T
              (fun sm => mapModify sm S (fun _ => { subCh with buf := rest }))) },
          some { value := some v, err := none }) := by
  simp only [handle, hT, hS, Chan.tryRecv, hb]

/-- Case analysis on the state seen by `GET_MSG`. -/
theorem handle_GET_MSG_cases (th : topicHandler) (T S : String) :
    (mapGet th.topicMap T = none ∧
      handle th (.GET_MSG T S)
        = (th, some { value := none, err := some Error.ErrTopicNotFound })) ∨
    (∃ subMap, mapGet th.topicMap T = some subMap ∧ mapGet subMap S = none ∧
      handle th (.GET_MSG T S)
        = (th, some { value := none, err := some Error.ErrSubNotFound })) ∨
    (∃ subMap subCh, mapGet th.topicMap T = some subMap ∧ mapGet subMap S = some subCh ∧
      subCh.buf = [] ∧
      handle th (.GET_MSG T S)
        = (th, some { value := none, err := some Error.ErrNoNewMessages })) ∨
    (∃ subMap subCh v rest, mapGet th.topicMap T = some subMap ∧
      mapGet subMap S = some subCh ∧ subCh.buf = v :: rest ∧
      handle th (.GET_MSG T S)
        = ({ th with topicMap :=
              (mapModify th.topicMap T
                (fun sm => mapModify sm S (fun _ => { subCh with buf := rest }))) },
            some { value := some v, err := none })) := by
  cases hT : mapGet th.topicMap T with
  | none => exact Or.inl ⟨rfl, handle_GET_MSG_topic_absent th T S hT⟩
  | some subMap =>
    cases hS : mapGet subMap S with
    | none => exact Or.inr (Or.inl ⟨subMap, rfl, hS, handle_GET_MSG_sub_absent th T S subMap hT hS⟩)
    | some subCh =>
      cases hb : subCh.buf with
      | nil =>
        exact Or.inr (Or.inr (Or.inl
          ⟨subMap, subCh, rfl, hS, hb, handle_GET_MSG_empty th T S subMap subCh hT hS hb⟩))
      | cons v rest =>
        exact Or.inr (Or.inr (Or.inr
          ⟨subMap, subCh, v, rest, rfl, hS, hb,
            handle_GET_MSG_recv th T S subMap subCh v rest hT hS hb⟩))

/-! ## Effect of one request on the topic map -/

theorem step_maxOutStandingMessages (th : topicHandler) (r : request) :
    (step th r).maxOutStandingMessages = th.maxOutStandingMessages := by
  cases r with
  | ADD_SUB key value => rfl
  | DEL_SUB key value =>
    simp only [step, handle]
    cases mapGet th.topicMap key <;> rfl
  | POST_MSG key value => rfl
  | GET_MSG key value =>
    rcases handle_GET_MSG_cases th key value with ⟨_, h⟩ | ⟨_, _, _, h⟩ | ⟨_, _, _, _, _, h⟩ |
      ⟨_, _, _, _, _, _, _, h⟩ <;> simp only [step, h]
  | CLOSE_QUEUE => rfl

theorem topicMap_ADD_SUB_self (th : topicHandler) (T S : String) :
    mapGet (step th (.ADD_SUB T S)).topicMap T
      = some (mapSet ((mapGet th.topicMap T).getD []) S (Chan.make th.maxOutStandingMessages)) := by
  simp only [step, handle]
  cases h : mapGet th.topicMap T with
  | none => simp [mapGet_mapModify_self, mapGet_mapSet_self]
  | some subMap => simp [mapGet_mapModify_self, h]

theorem topicMap_ADD_SUB_ne (th : topicHandler) {T T' : String} (S : String) (h : T ≠ T') :
    mapGet (step th (.ADD_SUB T S)).topicMap T' = mapGet th.topicMap T' := by
  simp only [step, handle]
  cases mapGet th.topicMap T with
  | none => simp [mapGet_mapModify_ne _ _ h, mapGet_mapSet_ne _ _ h]
  | some subMap => simp [mapGet_mapModify_ne _ _ h]

theorem topicMap_DEL_SUB_self (th : topicHandler) (T S : String) :
    mapGet (step th (.DEL_SUB T S)).topicMap T
      = (mapGet th.topicMap T).map (fun subMap => mapDelete subMap S) := by
  simp only [step, handle]
  cases h : mapGet th.topicMap T with
  | none => simp [h]
  | some subMap => simp [mapGet_mapModify_self, h]

theorem topicMap_DEL_SUB_ne (th : topicHandler) {T T' : String} (S : String) (h : T ≠ T') :
    mapGet (step th (.DEL_SUB T S)).topicMap T' = mapGet th.topicMap T' := by
  simp only [step, handle]
  cases mapGet th.topicMap T with
  | none => rfl
  | some subMap => simp [mapGet_mapModify_ne _ _ h]

theorem topicMap_POST_MSG_self (th : topicHandler) (T : String) (v : PubMessage) :
    mapGet (step th (.POST_MSG T v)).topicMap T
      = (mapGet th.topicMap T).map (fun subMap => mapForAll subMap (fun ch => ch.trySend v)) := by
  simp only [step, handle, mapGet_mapModify_self]

theorem topicMap_POST_MSG_ne (th : topicHandler) {T T' : String} (v : PubMessage) (h : T ≠ T') :
    mapGet (step th (.POST_MSG T v)).topicMap T' = mapGet th.topicMap T' := by
  simp only [step, handle, mapGet_mapModify_ne _ _ h]

theorem topicMap_GET_MSG_ne (th : topicHandler) {T T' : String} (S : String) (h : T ≠ T') :
    mapGet (step th (.GET_MSG T S)).topicMap T' = mapGet th.topicMap T' := by
  rcases handle_GET_MSG_cases th T S with ⟨_, e⟩ | ⟨_, _, _, e⟩ | ⟨_, _, _, _, _, e⟩ |
    ⟨_, _, _, _, _, _, _, e⟩ <;> simp only [step, e, mapGet_mapModify_ne _ _ h]

/-! ## Effect of one request on mailboxes -/

theorem mailbox_ADD_SUB_self (th : topicHandler) (T S : String) :
    mailbox (step th (.ADD_SUB T S)) T S = some (Chan.make th.maxOutStandingMessages) := by
  simp [mailbox, topicMap_ADD_SUB_self, mapGet_mapSet_self]

theorem mailbox_ADD_SUB_other (th : topicHandler) {T S T' S' : String} (h : T ≠ T' ∨ S ≠ S') :
    mailbox (step th (.ADD_SUB T S)) T' S' = mailbox th T' S' := by
  by_cases hT : T = T'
  · subst hT
    have hS : S ≠ S' := h.resolve_left (fun c => c rfl)
    simp only [mailbox, topicMap_ADD_SUB_self]
    cases mapGet th.topicMap T with
    | none =>
      simp only [Option.getD_none, Option.some_bind, Option.none_bind, mapGet_mapSet_ne _ _ hS]
      rfl
    | some subMap => simp [mapGet_mapSet_ne _ _ hS]
  · simp [mailbox, topicMap_ADD_SUB_ne _ _ hT]

theorem mailbox_DEL_SUB_self (th : topicHandler) (T S : String) :
    mailbox (step th (.DEL_SUB T S)) T S = none := by
  simp only [mailbox, topicMap_DEL_SUB_self]
  cases mapGet th.topicMap T with
  | none => rfl
  | some subMap => simp [mapGet_mapDelete_self]

theorem mailbox_DEL_SUB_other (th : topicHandler) {T S T' S' : String} (h : T ≠ T' ∨ S ≠ S') :
    mailbox (step th (.DEL_SUB T S)) T' S' = mailbox th T' S' := by
  by_cases hT : T = T'
  · subst hT
    have hS : S ≠ S' := h.resolve_left (fun c => c rfl)
    simp only [mailbox, topicMap_DEL_SUB_self]
    cases mapGet th.topicMap T with
    | none => rfl
    | some subMap => simp [mapGet_mapDelete_ne _ hS]
  · simp [mailbox, topicMap_DEL_SUB_ne _ _ hT]

theorem mailbox_POST_MSG_self (th : topicHandler) (T S : String) (v : PubMessage) :
    mailbox (step th (.POST_MSG T v)) T S = (mailbox th T S).map (fun ch => ch.trySend v) := by
  simp only [mailbox, topicMap_POST_MSG_self]
  cases mapGet th.topicMap T with
  | none => rfl
  | some subMap => simp [mapGet_mapForAll]

theorem mailbox_POST_MSG_ne (th : topicHandler) {T T' : String} (S : String) (v : PubMessage)
    (h : T ≠ T') : mailbox (step th (.POST_MSG T v)) T' S = mailbox th T' S := by
  simp [mailbox, topicMap_POST_MSG_ne _ _ h]

theorem mailbox_GET_MSG_self (th : topicHandler) (T S : String) :
    mailbox (step th (.GET_MSG T S)) T S = (mailbox th T S).map Chan.afterRecv := by
  rcases handle_GET_MSG_cases th T S with ⟨hT, e⟩ | ⟨sm, hT, hS, e⟩ | ⟨sm, ch, hT, hS, hb, e⟩ |
    ⟨sm, ch, v, rest, hT, hS, hb, e⟩
  · simp [mailbox, step, e, hT]
  · simp [mailbox, step, e, hT, hS]
  · obtain ⟨c, b⟩ := ch
    simp only at hb
    subst hb
    simp [mailbox, step, e, hT, hS, Chan.afterRecv]
  · simp [mailbox, step, e, hT, hS, Chan.afterRecv, mapGet_mapModify_self, hb]

theorem mailbox_GET_MSG_other (th : topicHandler) {T S T' S' : String} (h : T ≠ T' ∨ S ≠ S') :
    mailbox (step th (.GET_MSG T S)) T' S' = mailbox th T' S' := by
  by_cases hT : T = T'
  · subst hT
    have hS : S ≠ S' := h.resolve_left (fun c => c rfl)
    rcases handle_GET_MSG_cases th T S with ⟨_, e⟩ | ⟨_, _, _, e⟩ | ⟨_, _, _, _, _, e⟩ |
      ⟨sm, ch, v, rest, hT, _, _, e⟩
    · simp only [step, e]
    · simp only [step, e]
    · simp only [step, e]
    · simp [mailbox, step, e, hT, mapGet_mapModify_self, mapGet_mapModify_ne _ _ hS]
  · simp [mailbox, topicMap_GET_MSG_ne _ _ hT]

theorem mailbox_CLOSE_QUEUE (th : topicHandler) (T S : String) :
    mailbox (step th .CLOSE_QUEUE) T S = mailbox th T S := rfl

/-! ## The response to `GET_MSG` -/

theorem getMsg_topic_absent (th : topicHandler) (T S : String)
    (h : mapGet th.topicMap T = none) :
    getMsg th T S = some { value := none, err := some Error.ErrTopicNotFound } := by
  simp only [getMsg, handle_GET_MSG_topic_absent th T S h]

theorem getMsg_sub_absent (th : topicHandler) (T S : String)
    (hT : hasTopic th T = true) (hS : mailbox th T S = none) :
    getMsg th T S = some { value := none, err := some Error.ErrSubNotFound } := by
  simp only [hasTopic, mailbox] at hT hS
  cases h : mapGet th.topicMap T with
  | none => simp [h] at hT
  | some subMap =>
    simp only [h, Option.some_bind] at hS
    simp only [getMsg, handle_GET_MSG_sub_absent th T S subMap h hS]

theorem getMsg_of_mailbox (th : topicHandler) (T S : String) (ch : Chan)
    (h : mailbox th T S = some ch) :
    getMsg th T S = some (match ch.buf with
      | [] => { value := none, err := some Error.ErrNoNewMessages }
      | v :: _ => { value := some v, err := none }) := by
  simp only [mailbox] at h
  cases hT : mapGet th.topicMap T with
  | none => simp [hT] at h
  | some subMap =>
    simp only [hT, Option.some_bind] at h
    cases hb : ch.buf with
    | nil => simp only [getMsg, handle_GET_MSG_empty th T S subMap ch hT h hb]
    | cons v rest => simp only [getMsg, handle_GET_MSG_recv th T S subMap ch v rest hT h hb]

theorem getMsg_of_mailbox_nil (th : topicHandler) (T S : String) (ch : Chan)
    (h : mailbox th T S = some ch) (hb : ch.buf = []) :
    getMsg th T S = some { value := none, err := some Error.ErrNoNewMessages } := by
  rw [getMsg_of_mailbox th T S ch h, hb]

theorem getMsg_of_mailbox_cons (th : topicHandler) (T S : String) (ch : Chan)
    (v : PubMessage) (rest : List PubMessage)
    (h : mailbox th T S = some ch) (hb : ch.buf = v :: rest) :
    getMsg th T S = some { value := some v, err := none } := by
  rw [getMsg_of_mailbox th T S ch h, hb]

theorem getMsg_isSome (th : topicHandler) (T S : String) : (getMsg th T S).isSome = true := by
  rcases handle_GET_MSG_cases th T S with ⟨_, e⟩ | ⟨_, _, _, e⟩ | ⟨_, _, _, _, _, e⟩ |
    ⟨_, _, _, _, _, _, _, e⟩ <;> simp only [getMsg, e, Option.isSome_some]

/-! ## Sequences of requests -/

theorem stepAll_nil (th : topicHandler) : stepAll th [] = th := rfl

theorem stepAll_cons (th : topicHandler) (r : request) (rs : List request) :
    stepAll th (r :: rs) = stepAll (step th r) rs := rfl

theorem stepAll_append (th : topicHandler) (rs rs' : List request) :
    stepAll th (rs ++ rs') = stepAll (stepAll th rs) rs' := by
  simp only [stepAll, List.foldl_append]

theorem stepAll_maxOutStandingMessages (th : topicHandler) (rs : List request) :
    (stepAll th rs).maxOutStandingMessages = th.maxOutStandingMessages := by
  induction rs generalizing th with
  | nil => rfl
  | cons r rs ih => rw [stepAll_cons, ih, step_maxOutStandingMessages]

theorem responses_ADD_SUB (th : topicHandler) (T S : String) (rs : List request) :
    responses th (.ADD_SUB T S :: rs) = responses (step th (.ADD_SUB T S)) rs := rfl

theorem responses_DEL_SUB (th : topicHandler) (T S : String) (rs : List request) :
    responses th (.DEL_SUB T S :: rs) = responses (step th (.DEL_SUB T S)) rs := by
  have h : (handle th (.DEL_SUB T S)).2 = none := by
    simp only [handle]
    cases mapGet th.topicMap T <;> rfl
  simp only [responses, h, step]

theorem responses_POST_MSG (th : topicHandler) (T : String) (v : PubMessage)
    (rs : List request) :
    responses th (.POST_MSG T v :: rs) = responses (step th (.POST_MSG T v)) rs := rfl

theorem responses_CLOSE_QUEUE (th : topicHandler) (rs : List request) :
    responses th (.CLOSE_QUEUE :: rs) = responses (step th .CLOSE_QUEUE) rs := rfl

theorem responses_GET_MSG (th : topicHandler) (T S : String) (rs : List request)
    (resp : response) (h : getMsg th T S = some resp) :
    responses th (.GET_MSG T S :: rs) = resp :: responses (step th (.GET_MSG T S)) rs := by
  simp only [getMsg] at h
  simp only [responses, h, step]

/-! ## C1: precedence of the `GET_MSG` outcomes -/

/-- C1: processing `GET_MSG` on `(T, S)` sends one response, chosen by precedence:
`ErrTopicNotFound` when `T` is not a key of the topic map; otherwise `ErrSubNotFound` when `S`
is not a key of the subscriber map of `T`; otherwise `ErrNoNewMessages` when the mailbox of `S`
is empty; otherwise the message at the head of the mailbox with a nil error. -/
theorem get_error_precedence (th : topicHandler) (T S : String) :
    (∃ resp, (handle th (.GET_MSG T S)).2 = some resp) ∧
    (mapGet th.topicMap T = none →
      (handle th (.GET_MSG T S)).2
        = some { value := none, err := some Error.ErrTopicNotFound }) ∧
    (∀ subMap, mapGet th.topicMap T = some subMap → mapGet subMap S = none →
      (handle th (.GET_MSG T S)).2
        = some { value := none, err := some Error.ErrSubNotFound }) ∧
    (∀ subMap subCh, mapGet th.topicMap T = some subMap → mapGet subMap S = some subCh →
      subCh.buf = [] →
      (handle th (.GET_MSG T S)).2
        = some { value := none, err := some Error.ErrNoNewMessages }) ∧
    (∀ subMap subCh v rest, mapGet th.topicMap T = some subMap →
      mapGet subMap S = some subCh → subCh.buf = v :: rest →
      (handle th (.GET_MSG T S)).2 = some { value := some v, err := none }) := by
  refine ⟨?_, ?_, ?_, ?_, ?_⟩
  · exact Option.isSome_iff_exists.mp (getMsg_isSome th T S)
  · intro hT
    rw [handle_GET_MSG_topic_absent th T S hT]
  · intro subMap hT hS
    rw [handle_GET_MSG_sub_absent th T S subMap hT hS]
  · intro subMap subCh hT hS hb
    rw [handle_GET_MSG_empty th T S subMap subCh hT hS hb]
  · intro subMap subCh v rest hT hS hb
    rw [handle_GET_MSG_recv th T S subMap subCh v rest hT hS hb]

/-- The four outcomes of C1 on a worker with topic `t`, subscriber `a` holding two messages
and subscriber `b` holding none. -/
theorem get_error_precedence_witness :
    (handle ⟨[("t", [("a", ⟨2, [⟨"m1", 1⟩, ⟨"m2", 2⟩]⟩), ("b", ⟨2, []⟩)])], 2⟩
        (.GET_MSG "u" "a")).2 = some { value := none, err := some Error.ErrTopicNotFound } ∧
    (handle ⟨[("t", [("a", ⟨2, [⟨"m1", 1⟩, ⟨"m2", 2⟩]⟩), ("b", ⟨2, []⟩)])], 2⟩
        (.GET_MSG "t" "c")).2 = some { value := none, err := some Error.ErrSubNotFound } ∧
    (handle ⟨[("t", [("a", ⟨2, [⟨"m1", 1⟩, ⟨"m2", 2⟩]⟩), ("b", ⟨2, []⟩)])], 2⟩
        (.GET_MSG "t" "b")).2 = some { value := none, err := some Error.ErrNoNewMessages } ∧
    (handle ⟨[("t", [("a", ⟨2, [⟨"m1", 1⟩, ⟨"m2", 2⟩]⟩), ("b", ⟨2, []⟩)])], 2⟩
        (.GET_MSG "t" "a")).2 = some { value := some ⟨"m1", 1⟩, err := none } :=
  ⟨(get_error_precedence _ "u" "a").2.1 (by decide),
   (get_error_precedence _ "t" "c").2.2.1
      [("a", ⟨2, [⟨"m1", 1⟩, ⟨"m2", 2⟩]⟩), ("b", ⟨2, []⟩)] (by decide) (by decide),
   (get_error_precedence _ "t" "b").2.2.2.1
      [("a", ⟨2, [⟨"m1", 1⟩, ⟨"m2", 2⟩]⟩), ("b", ⟨2, []⟩)] ⟨2, []⟩
      (by decide) (by decide) (by decide),
   (get_error_precedence _ "t" "a").2.2.2.2
      [("a", ⟨2, [⟨"m1", 1⟩, ⟨"m2", 2⟩]⟩), ("b", ⟨2, []⟩)] ⟨2, [⟨"m1", 1⟩, ⟨"m2", 2⟩]⟩
      ⟨"m1", 1⟩ [⟨"m2", 2⟩] (by decide) (by decide) (by decide)⟩

/-! ## C2: a published message is delivered exactly once -/

/-- C2: with capacity at least 1, processing `Subscribe(T, S)`, `Publish(T, msg)`, `Get(T, S)`,
`Get(T, S)` from any worker state sends exactly two responses: `msg` with a nil error, then
`ErrNoNewMessages`. -/
theorem subscribe_publish_get_once (th : topicHandler) (T S : String) (msg : PubMessage)
    (hC : 1 ≤ th.maxOutStandingMessages) :
    responses th [.ADD_SUB T S, .POST_MSG T msg, .GET_MSG T S, .GET_MSG T S]
      = [{ value := some msg, err := none },
         { value := none, err := some Error.ErrNoNewMessages }] := by
  have h1 : mailbox (step (step th (.ADD_SUB T S)) (.POST_MSG T msg)) T S
      = some { cap := th.maxOutStandingMessages, buf := [msg] } := by
    rw [mailbox_POST_MSG_self, mailbox_ADD_SUB_self]
    have : 0 < th.maxOutStandingMessages := hC
    simp [Chan.make, Chan.trySend, this]
  have h2 : mailbox (step (step (step th (.ADD_SUB T S)) (.POST_MSG T msg)) (.GET_MSG T S)) T S
      = some { cap := th.maxOutStandingMessages, buf := [] } := by
    rw [mailbox_GET_MSG_self, h1]
    rfl
  rw [responses_ADD_SUB, responses_POST_MSG,
    responses_GET_MSG _ T S _ _ (getMsg_of_mailbox_cons _ T S _ msg [] h1 rfl),
    responses_GET_MSG _ T S _ _ (getMsg_of_mailbox_nil _ T S _ h2 rfl)]
  rfl

/-- C2 on a worker that already holds an older message for the subscriber. -/
theorem subscribe_publish_get_once_witness :
    responses ⟨[("t", [("s", ⟨1, [⟨"old", 0⟩]⟩)])], 1⟩
        [.ADD_SUB "t" "s", .POST_MSG "t" ⟨"m", 1⟩, .GET_MSG "t" "s", .GET_MSG "t" "s"]
      = [{ value := some ⟨"m", 1⟩, err := none },
         { value := none, err := some Error.ErrNoNewMessages }] :=
  subscribe_publish_get_once ⟨[("t", [("s", ⟨1, [⟨"old", 0⟩]⟩)])], 1⟩ "t" "s" ⟨"m", 1⟩
    (by decide)

/-! ## C3: mailboxes stay within their capacity -/

theorem Chan.trySend_cap (ch : Chan) (v : PubMessage) : (ch.trySend v).cap = ch.cap := by
  unfold Chan.trySend
  split <;> rfl

theorem Chan.trySend_of_lt (ch : Chan) (v : PubMessage) (h : ch.buf.length < ch.cap) :
    ch.trySend v = { ch with buf := ch.buf ++ [v] } := by
  simp only [Chan.trySend, h, if_true]

theorem Chan.trySend_of_not_lt (ch : Chan) (v : PubMessage) (h : ¬ ch.buf.length < ch.cap) :
    ch.trySend v = ch := by
  simp only [Chan.trySend, h, if_false]

theorem Chan.trySend_length_le (ch : Chan) (v : PubMessage) (h : ch.buf.length ≤ ch.cap) :
    (ch.trySend v).buf.length ≤ ch.cap := by
  by_cases hlt : ch.buf.length < ch.cap
  · rw [Chan.trySend_of_lt ch v hlt]
    simp only [List.length_append, List.length_singleton]
    omega
  · rw [Chan.trySend_of_not_lt ch v hlt]
    exact h

theorem Chan.afterRecv_cap (ch : Chan) : ch.afterRecv.cap = ch.cap := rfl

theorem Chan.afterRecv_length_le (ch : Chan) : ch.afterRecv.buf.length ≤ ch.buf.length := by
  simp only [Chan.afterRecv, List.length_tail]
  omega

/-- One request keeps every registered mailbox at the worker's capacity and within it. -/
theorem step_preserves_bound (th : topicHandler) (r : request)
    (h : ∀ T S ch, mailbox th T S = some ch →
      ch.cap = th.maxOutStandingMessages ∧ ch.buf.length ≤ ch.cap) :
    ∀ T S ch, mailbox (step th r) T S = some ch →
      ch.cap = (step th r).maxOutStandingMessages ∧ ch.buf.length ≤ ch.cap := by
  intro T' S' ch' hm
  rw [step_maxOutStandingMessages]
  cases r with
  | ADD_SUB T S =>
    by_cases hk : T = T' ∧ S = S'
    · obtain ⟨rfl, rfl⟩ := hk
      rw [mailbox_ADD_SUB_self] at hm
      cases hm
      exact ⟨rfl, Nat.zero_le _⟩
    · rw [mailbox_ADD_SUB_other th (not_and_or.mp hk)] at hm
      exact h T' S' ch' hm
  | DEL_SUB T S =>
    by_cases hk : T = T' ∧ S = S'
    · obtain ⟨rfl, rfl⟩ := hk
      rw [mailbox_DEL_SUB_self] at hm
      cases hm
    · rw [mailbox_DEL_SUB_other th (not_and_or.mp hk)] at hm
      exact h T' S' ch' hm
  | POST_MSG T v =>
    by_cases hk : T = T'
    · subst hk
      rw [mailbox_POST_MSG_self] at hm
      cases hc : mailbox th T S' with
      | none => rw [hc] at hm; cases hm
      | some ch =>
        rw [hc] at hm
        cases hm
        obtain ⟨h1, h2⟩ := h T S' ch hc
        exact ⟨by rw [Chan.trySend_cap, h1],
          by rw [Chan.trySend_cap]; exact Chan.trySend_length_le ch v h2⟩
    · rw [mailbox_POST_MSG_ne th S' v hk] at hm
      exact h T' S' ch' hm
  | GET_MSG T S =>
    by_cases hk : T = T' ∧ S = S'
    · obtain ⟨rfl, rfl⟩ := hk
      rw [mailbox_GET_MSG_self] at hm
      cases hc : mailbox th T S with
      | none => rw [hc] at hm; cases hm
      | some ch =>
        rw [hc] at hm
        cases hm
        obtain ⟨h1, h2⟩ := h T S ch hc
        exact ⟨by rw [Chan.afterRecv_cap, h1],
          by rw [Chan.afterRecv_cap]; exact le_trans (Chan.afterRecv_length_le ch) h2⟩
    · rw [mailbox_GET_MSG_other th (not_and_or.mp hk)] at hm
      exact h T' S' ch' hm
  | CLOSE_QUEUE => exact h T' S' ch' hm

theorem stepAll_preserves_bound (th : topicHandler) (rs : List request)
    (h : ∀ T S ch, mailbox th T S = some ch →
      ch.cap = th.maxOutStandingMessages ∧ ch.buf.length ≤ ch.cap) :
    ∀ T S ch, mailbox (stepAll th rs) T S = some ch →
      ch.cap = th.maxOutStandingMessages ∧ ch.buf.length ≤ ch.cap := by
  induction rs generalizing th with
  | nil => exact h
  | cons r rs ih =>
    intro T S ch hm
    rw [stepAll_cons] at hm
    have := ih (step th r) (step_preserves_bound th r h) T S ch hm
    rwa [step_maxOutStandingMessages] at this

theorem mailbox_newTopicHandler (C : Nat) (T S : String) :
    mailbox (newTopicHandler C) T S = none := rfl

/-- C3: in every state reached from the empty worker state (capacity `C ≥ 0`) by a finite
sequence of Subscribe, Unsubscribe, Publish and Get requests, every mailbox has capacity `C` and
holds at most `C` messages; and a Publish to a mailbox that holds exactly `C` messages leaves
that mailbox, hence its length, unchanged. -/
theorem mailbox_within_capacity (C : Nat) (rs : List request)
    (hrs : request.CLOSE_QUEUE ∉ rs) :
    (∀ T S ch, mailbox (stepAll (newTopicHandler C) rs) T S = some ch →
      ch.cap = C ∧ ch.buf.length ≤ C) ∧
    (∀ T S ch v, mailbox (stepAll (newTopicHandler C) rs) T S = some ch →
      ch.buf.length = C →
      mailbox (step (stepAll (newTopicHandler C) rs) (.POST_MSG T v)) T S = some ch) := by
  have inv : ∀ T S ch, mailbox (stepAll (newTopicHandler C) rs) T S = some ch →
      ch.cap = C ∧ ch.buf.length ≤ ch.cap := by
    apply stepAll_preserves_bound (newTopicHandler C) rs
    intro T S ch hm
    rw [mailbox_newTopicHandler] at hm
    cases hm
  constructor
  · intro T S ch hm
    obtain ⟨h1, h2⟩ := inv T S ch hm
    exact ⟨h1, h1 ▸ h2⟩
  · intro T S ch v hm hlen
    obtain ⟨h1, _⟩ := inv T S ch hm
    rw [mailbox_POST_MSG_self, hm, Option.map_some',
      Chan.trySend_of_not_lt ch v (by omega)]

/-- C3 on a capacity-1 worker after one subscription and two publications: the mailbox holds
one message and a third publication leaves it as it is. -/
theorem mailbox_within_capacity_witness :
    (⟨1, [⟨"m1", 1⟩]⟩ : Chan).cap = 1 ∧ (⟨1, [⟨"m1", 1⟩]⟩ : Chan).buf.length ≤ 1 ∧
    mailbox (step (stepAll (newTopicHandler 1)
        [.ADD_SUB "t" "s", .POST_MSG "t" ⟨"m1", 1⟩, .POST_MSG "t" ⟨"m2", 2⟩])
        (.POST_MSG "t" ⟨"m3", 3⟩)) "t" "s" = some ⟨1, [⟨"m1", 1⟩]⟩ :=
  ⟨((mailbox_within_capacity 1
        [.ADD_SUB "t" "s", .POST_MSG "t" ⟨"m1", 1⟩, .POST_MSG "t" ⟨"m2", 2⟩] (by decide)).1
        "t" "s" ⟨1, [⟨"m1", 1⟩]⟩ (by decide)).1,
   ((mailbox_within_capacity 1
        [.ADD_SUB "t" "s", .POST_MSG "t" ⟨"m1", 1⟩, .POST_MSG "t" ⟨"m2", 2⟩] (by decide)).1
        "t" "s" ⟨1, [⟨"m1", 1⟩]⟩ (by decide)).2,
   (mailbox_within_capacity 1
        [.ADD_SUB "t" "s", .POST_MSG "t" ⟨"m1", 1⟩, .POST_MSG "t" ⟨"m2", 2⟩] (by decide)).2
        "t" "s" ⟨1, [⟨"m1", 1⟩]⟩ ⟨"m3", 3⟩ (by decide) (by decide)⟩

/-! ## C4: a publication reaches each subscriber independently -/

/-- C4: processing `Publish(T, msg)` sends no response and acts on each subscriber `S` of `T`
on its own (`C` is the capacity the worker gives every mailbox): a mailbox holding fewer than `C`
messages gets `msg` appended at its tail, a mailbox holding `C` messages stays exactly as it was,
a name that is not subscribed stays unsubscribed; so a full mailbox of `S₁` does not keep `msg`
from a subscriber `S₂` with room. -/
theorem publish_per_subscriber (th : topicHandler) (T : String) (msg : PubMessage) :
    (handle th (.POST_MSG T msg)).2 = none ∧
    (∀ S ch, mailbox th T S = some ch → ch.cap = th.maxOutStandingMessages →
      ch.buf.length < th.maxOutStandingMessages →
      mailbox (step th (.POST_MSG T msg)) T S = some { ch with buf := ch.buf ++ [msg] }) ∧
    (∀ S ch, mailbox th T S = some ch → ch.cap = th.maxOutStandingMessages →
      ch.buf.length = th.maxOutStandingMessages →
      mailbox (step th (.POST_MSG T msg)) T S = some ch) ∧
    (∀ S, mailbox th T S = none → mailbox (step th (.POST_MSG T msg)) T S = none) ∧
    (∀ S₁ S₂ ch₁ ch₂, mailbox th T S₁ = some ch₁ → mailbox th T S₂ = some ch₂ →
      ch₁.cap = th.maxOutStandingMessages → ch₂.cap = th.maxOutStandingMessages →
      ch₁.buf.length = th.maxOutStandingMessages →
      ch₂.buf.length < th.maxOutStandingMessages →
      mailbox (step th (.POST_MSG T msg)) T S₁ = some ch₁ ∧
      mailbox (step th (.POST_MSG T msg)) T S₂ = some { ch₂ with buf := ch₂.buf ++ [msg] }) := by
  have hlt : ∀ S ch, mailbox th T S = some ch → ch.cap = th.maxOutStandingMessages →
      ch.buf.length < th.maxOutStandingMessages →
      mailbox (step th (.POST_MSG T msg)) T S = some { ch with buf := ch.buf ++ [msg] } := by
    intro S ch hm hcap hl
    rw [mailbox_POST_MSG_self, hm, Option.map_some', Chan.trySend_of_lt ch msg (by omega)]
  have hfull : ∀ S ch, mailbox th T S = some ch → ch.cap = th.maxOutStandingMessages →
      ch.buf.length = th.maxOutStandingMessages →
      mailbox (step th (.POST_MSG T msg)) T S = some ch := by
    intro S ch hm hcap hl
    rw [mailbox_POST_MSG_self, hm, Option.map_some', Chan.trySend_of_not_lt ch msg (by omega)]
  refine ⟨rfl, hlt, hfull, ?_, ?_⟩
  · intro S hm
    rw [mailbox_POST_MSG_self, hm, Option.map_none']
  · intro S₁ S₂ ch₁ ch₂ hm₁ hm₂ hc₁ hc₂ hl₁ hl₂
    exact ⟨hfull S₁ ch₁ hm₁ hc₁ hl₁, hlt S₂ ch₂ hm₂ hc₂ hl₂⟩

/-- C4 on a capacity-1 worker where subscriber `a` is full and subscriber `b` is empty. -/
theorem publish_per_subscriber_witness :
    mailbox (step ⟨[("t", [("a", ⟨1, [⟨"m1", 1⟩]⟩), ("b", ⟨1, []⟩)])], 1⟩
        (.POST_MSG "t" ⟨"m2", 2⟩)) "t" "a" = some ⟨1, [⟨"m1", 1⟩]⟩ ∧
    mailbox (step ⟨[("t", [("a", ⟨1, [⟨"m1", 1⟩]⟩), ("b", ⟨1, []⟩)])], 1⟩
        (.POST_MSG "t" ⟨"m2", 2⟩)) "t" "b" = some ⟨1, [⟨"m2", 2⟩]⟩ :=
  (publish_per_subscriber ⟨[("t", [("a", ⟨1, [⟨"m1", 1⟩]⟩), ("b", ⟨1, []⟩)])], 1⟩
      "t" ⟨"m2", 2⟩).2.2.2.2 "a" "b" ⟨1, [⟨"m1", 1⟩]⟩ ⟨1, []⟩
      (by decide) (by decide) (by decide) (by decide) (by decide) (by decide)

/-! ## C5: mailboxes are FIFO and drop the newest messages on overflow -/

/-- Requests of `rs` that leave the registration of `(T, S)` alone keep its mailbox channel and
append to it, up to its capacity, the messages published to `T`, in order. -/
theorem mailbox_stepAll_published (T S : String) (rs : List request) :
    ∀ (th : topicHandler) (c : Nat) (buf : List PubMessage),
      (∀ r ∈ rs, r ≠ .ADD_SUB T S ∧ r ≠ .DEL_SUB T S ∧ r ≠ .GET_MSG T S) →
      mailbox th T S = some { cap := c, buf := buf } →
      mailbox (stepAll th rs) T S
        = some { cap := c, buf := buf ++ (publishedTo T rs).take (c - buf.length) } := by
  induction rs with
  | nil =>
    intro th c buf _ hm
    simp [stepAll_nil, publishedTo, hm]
  | cons r rs ih =>
    intro th c buf hrs hm
    have hr := hrs r (List.mem_cons_self r rs)
    have hrs' : ∀ r' ∈ rs, r' ≠ .ADD_SUB T S ∧ r' ≠ .DEL_SUB T S ∧ r' ≠ .GET_MSG T S :=
      fun r' h' => hrs r' (List.mem_cons_of_mem r h')
    rw [stepAll_cons]
    cases r with
    | ADD_SUB T' S' =>
      have hk : T' ≠ T ∨ S' ≠ S := by
        by_contra hc
        push_neg at hc
        exact hr.1 (by rw [hc.1, hc.2])
      have := ih (step th (.ADD_SUB T' S')) c buf hrs' (by rw [mailbox_ADD_SUB_other th hk, hm])
      simpa [publishedTo] using this
    | DEL_SUB T' S' =>
      have hk : T' ≠ T ∨ S' ≠ S := by
        by_contra hc
        push_neg at hc
        exact hr.2.1 (by rw [hc.1, hc.2])
      have := ih (step th (.DEL_SUB T' S')) c buf hrs' (by rw [mailbox_DEL_SUB_other th hk, hm])
      simpa [publishedTo] using this
    | GET_MSG T' S' =>
      have hk : T' ≠ T ∨ S' ≠ S := by
        by_contra hc
        push_neg at hc
        exact hr.2.2 (by rw [hc.1, hc.2])
      have := ih (step th (.GET_MSG T' S')) c buf hrs' (by rw [mailbox_GET_MSG_other th hk, hm])
      simpa [publishedTo] using this
    | CLOSE_QUEUE =>
      have := ih (step th .CLOSE_QUEUE) c buf hrs' (by rw [mailbox_CLOSE_QUEUE, hm])
      simpa [publishedTo] using this
    | POST_MSG T' v =>
      by_cases hT : T' = T
      · subst hT
        by_cases hlt : buf.length < c
        · have hm' : mailbox (step th (.POST_MSG T' v)) T' S
              = some { cap := c, buf := buf ++ [v] } := by
            rw [mailbox_POST_MSG_self, hm, Option.map_some', Chan.trySend_of_lt _ v hlt]
          rw [ih _ c (buf ++ [v]) hrs' hm']
          have e : c - buf.length = (c - (buf ++ [v]).length) + 1 := by
            simp only [List.length_append, List.length_singleton]
            omega
          simp only [publishedTo, if_true]
          rw [e, List.take_succ_cons, List.append_assoc, List.singleton_append]
        · have hm' : mailbox (step th (.POST_MSG T' v)) T' S
              = some { cap := c, buf := buf } := by
            rw [mailbox_POST_MSG_self, hm, Option.map_some', Chan.trySend_of_not_lt _ v hlt]
          rw [ih _ c buf hrs' hm']
          have e : c - buf.length = 0 := by omega
          simp only [publishedTo, if_true, e, List.take_zero]
      · have := ih (step th (.POST_MSG T' v)) c buf hrs' (by rw [mailbox_POST_MSG_ne th S v hT, hm])
        simpa [publishedTo, hT] using this

/-- Consecutive `GET_MSG` requests drain a mailbox in buffer order and then report
`ErrNoNewMessages`. -/
theorem responses_drain (T S : String) (buf : List PubMessage) :
    ∀ (th : topicHandler) (c : Nat), mailbox th T S = some { cap := c, buf := buf } →
      responses th (List.replicate (buf.length + 1) (.GET_MSG T S))
        = buf.map response.ok ++ [response.fail Error.ErrNoNewMessages] := by
  induction buf with
  | nil =>
    intro th c hm
    simp only [List.length_nil, Nat.zero_add, List.replicate_one, List.map_nil, List.nil_append]
    rw [responses_GET_MSG th T S [] _ (getMsg_of_mailbox_nil th T S _ hm rfl)]
    rfl
  | cons v rest ih =>
    intro th c hm
    have hm' : mailbox (step th (.GET_MSG T S)) T S = some { cap := c, buf := rest } := by
      rw [mailbox_GET_MSG_self, hm]
      rfl
    rw [List.length_cons, List.replicate_succ,
      responses_GET_MSG th T S _ _ (getMsg_of_mailbox_cons th T S _ v rest hm rfl),
      ih _ c hm']
    rfl

theorem publishedTo_map_POST_MSG (T : String) (ms : List PubMessage) :
    publishedTo T (ms.map (request.POST_MSG T)) = ms := by
  induction ms with
  | nil => rfl
  | cons m ms ih => simp [publishedTo, ih]

/-- C5: let `S` be freshly subscribed to `T` on a worker of capacity `C`, and let `rs` be any
requests that follow, none of them a Subscribe, Unsubscribe or Get on `(T, S)`, in which the
messages `m₁ .. m_k` are published to `T` in that order. Then the next `min k C` calls of
`Get(T, S)` return `m₁, .., m_(min k C)` in publish order and the call after them returns
`ErrNoNewMessages`: the messages after the `C`-th are never delivered. The second part is the
same for `m₁ .. m_k` published back to back. -/
theorem fifo_drops_newest (th : topicHandler) (T S : String) (rs : List request)
    (hrs : ∀ r ∈ rs, r ≠ .ADD_SUB T S ∧ r ≠ .DEL_SUB T S ∧ r ≠ .GET_MSG T S ∧
      r ≠ .CLOSE_QUEUE) :
    responses (stepAll (step th (.ADD_SUB T S)) rs)
        (List.replicate
          (min (publishedTo T rs).length th.maxOutStandingMessages + 1) (.GET_MSG T S))
      = ((publishedTo T rs).take th.maxOutStandingMessages).map response.ok
          ++ [response.fail Error.ErrNoNewMessages] ∧
    ∀ ms : List PubMessage,
      responses (stepAll (step th (.ADD_SUB T S)) (ms.map (request.POST_MSG T)))
          (List.replicate (min ms.length th.maxOutStandingMessages + 1) (.GET_MSG T S))
        = (ms.take th.maxOutStandingMessages).map response.ok
            ++ [response.fail Error.ErrNoNewMessages] := by
  have key : ∀ rs' : List request,
      (∀ r ∈ rs', r ≠ .ADD_SUB T S ∧ r ≠ .DEL_SUB T S ∧ r ≠ .GET_MSG T S) →
      responses (stepAll (step th (.ADD_SUB T S)) rs')
          (List.replicate
            (min (publishedTo T rs').length th.maxOutStandingMessages + 1) (.GET_MSG T S))
        = ((publishedTo T rs').take th.maxOutStandingMessages).map response.ok
            ++ [response.fail Error.ErrNoNewMessages] := by
    intro rs' h'
    have hm := mailbox_stepAll_published T S rs' (step th (.ADD_SUB T S))
      th.maxOutStandingMessages [] h' (mailbox_ADD_SUB_self th T S)
    simp only [List.nil_append, List.length_nil, Nat.sub_zero] at hm
    have := responses_drain T S _ _ _ hm
    rwa [List.length_take, Nat.min_comm] at this
  refine ⟨key rs (fun r hr => ⟨(hrs r hr).1, (hrs r hr).2.1, (hrs r hr).2.2.1⟩), ?_⟩
  intro ms
  have := key (ms.map (request.POST_MSG T)) (by
    intro r hr
    obtain ⟨m, _, rfl⟩ := List.mem_map.mp hr
    exact ⟨by simp, by simp, by simp⟩)
  rwa [publishedTo_map_POST_MSG] at this

/-- C5 on a capacity-2 worker: three messages are published to `t`, interleaved with requests
of another subscriber; `s` gets the first two in order, then `ErrNoNewMessages`. -/
theorem fifo_drops_newest_witness :
    responses (stepAll (step (newTopicHandler 2) (.ADD_SUB "t" "s"))
        [.POST_MSG "t" ⟨"m1", 1⟩, .ADD_SUB "t" "o", .POST_MSG "t" ⟨"m2", 2⟩, .GET_MSG "t" "o",
          .POST_MSG "t" ⟨"m3", 3⟩])
        [.GET_MSG "t" "s", .GET_MSG "t" "s", .GET_MSG "t" "s"]
      = [response.ok ⟨"m1", 1⟩, response.ok ⟨"m2", 2⟩,
          response.fail Error.ErrNoNewMessages] :=
  (fifo_drops_newest (newTopicHandler 2) "t" "s"
    [.POST_MSG "t" ⟨"m1", 1⟩, .ADD_SUB "t" "o", .POST_MSG "t" ⟨"m2", 2⟩, .GET_MSG "t" "o",
      .POST_MSG "t" ⟨"m3", 3⟩] (by decide)).1

/-! ## C6: fan-out -/

/-- Gets by pairwise distinct subscribers of `T`, each holding exactly `msg`, all return `msg`,
whatever their order. -/
theorem responses_distinct_subscribers (T : String) (msg : PubMessage) (order : List String) :
    ∀ (th : topicHandler), order.Nodup →
      (∀ S ∈ order, ∃ c, mailbox th T S = some { cap := c, buf := [msg] }) →
      responses th (order.map (request.GET_MSG T)) = order.map (fun _ => response.ok msg) := by
  induction order with
  | nil => intro th _ _; rfl
  | cons S order ih =>
    intro th hnd hm
    obtain ⟨c, hS⟩ := hm S (List.mem_cons_self S order)
    have hnot : S ∉ order := (List.nodup_cons.mp hnd).1
    rw [List.map_cons, responses_GET_MSG th T S _ _ (getMsg_of_mailbox_cons th T S _ msg [] hS rfl),
      ih (step th (.GET_MSG T S)) (List.nodup_cons.mp hnd).2]
    · rfl
    · intro S' hS'
      have hne : S ≠ S' := fun e => hnot (e ▸ hS')
      rw [mailbox_GET_MSG_other th (Or.inr hne)]
      exact hm S' (List.mem_cons_of_mem S hS')

/-- Requests that neither publish to `T` nor unsubscribe `(T, S)` keep an empty mailbox of
`(T, S)` empty. -/
theorem mailbox_stepAll_stays_empty (T S : String) (rs : List request) :
    ∀ (th : topicHandler),
      (∀ r ∈ rs, (∀ v, r ≠ .POST_MSG T v) ∧ r ≠ .DEL_SUB T S) →
      mailbox th T S = some (Chan.make th.maxOutStandingMessages) →
      mailbox (stepAll th rs) T S = some (Chan.make th.maxOutStandingMessages) := by
  induction rs with
  | nil => intro th _ hm; exact hm
  | cons r rs ih =>
    intro th hrs hm
    have hr := hrs r (List.mem_cons_self r rs)
    have hrs' : ∀ r' ∈ rs, (∀ v, r' ≠ .POST_MSG T v) ∧ r' ≠ .DEL_SUB T S :=
      fun r' h' => hrs r' (List.mem_cons_of_mem r h')
    have hstep : mailbox (step th r) T S = some (Chan.make th.maxOutStandingMessages) := by
      cases r with
      | ADD_SUB T' S' =>
        by_cases hk : T' = T ∧ S' = S
        · obtain ⟨rfl, rfl⟩ := hk
          exact mailbox_ADD_SUB_self th T' S'
        · rw [mailbox_ADD_SUB_other th (not_and_or.mp hk), hm]
      | DEL_SUB T' S' =>
        have hk : T' ≠ T ∨ S' ≠ S := by
          by_contra hc
          push_neg at hc
          exact hr.2 (by rw [hc.1, hc.2])
        rw [mailbox_DEL_SUB_other th hk, hm]
      | POST_MSG T' v =>
        have hT : T' ≠ T := fun e => hr.1 v (by rw [e])
        rw [mailbox_POST_MSG_ne th S v hT, hm]
      | GET_MSG T' S' =>
        by_cases hk : T' = T ∧ S' = S
        · obtain ⟨rfl, rfl⟩ := hk
          rw [mailbox_GET_MSG_self, hm]
          rfl
        · rw [mailbox_GET_MSG_other th (not_and_or.mp hk), hm]
      | CLOSE_QUEUE => exact hm
    have := ih (step th r) hrs' (by rw [step_maxOutStandingMessages]; exact hstep)
    rwa [step_maxOutStandingMessages] at this

/-- C6: with capacity at least 1 and pairwise distinct `S₁`, `S₂`, `S₃`, after `Subscribe(T, S₁)`,
`Subscribe(T, S₂)`, `Subscribe(T, S₃)` and one `Publish(T, msg)`, the three Gets return `msg`
in whatever order they are made. A subscriber `S₄` that subscribes to `T` at any later point
(after any requests `rs₀`) gets `ErrNoNewMessages` from `Get(T, S₄)` after any requests `rs` that
do not publish to `T` or unsubscribe it, and the message `msg₂` of the next `Publish(T, msg₂)`
is the one its next Get returns. -/
theorem fan_out (th : topicHandler) (T S₁ S₂ S₃ : String) (msg : PubMessage)
    (hC : 1 ≤ th.maxOutStandingMessages) (h₁₂ : S₁ ≠ S₂) (h₁₃ : S₁ ≠ S₃) (h₂₃ : S₂ ≠ S₃) :
    (∀ order : List String, order.Perm [S₁, S₂, S₃] →
      responses (stepAll th [.ADD_SUB T S₁, .ADD_SUB T S₂, .ADD_SUB T S₃, .POST_MSG T msg])
          (order.map (request.GET_MSG T))
        = [response.ok msg, response.ok msg, response.ok msg]) ∧
    (∀ (S₄ : String) (rs₀ rs : List request) (msg₂ : PubMessage),
      request.CLOSE_QUEUE ∉ rs₀ →
      (∀ r ∈ rs, (∀ v, r ≠ .POST_MSG T v) ∧ r ≠ .DEL_SUB T S₄ ∧ r ≠ .CLOSE_QUEUE) →
      getMsg (stepAll (step (stepAll (stepAll th
          [.ADD_SUB T S₁, .ADD_SUB T S₂, .ADD_SUB T S₃, .POST_MSG T msg]) rs₀)
          (.ADD_SUB T S₄)) rs) T S₄ = some (response.fail Error.ErrNoNewMessages) ∧
      getMsg (step (stepAll (step (stepAll (stepAll th
          [.ADD_SUB T S₁, .ADD_SUB T S₂, .ADD_SUB T S₃, .POST_MSG T msg]) rs₀)
          (.ADD_SUB T S₄)) rs) (.POST_MSG T msg₂)) T S₄ = some (response.ok msg₂)) := by
  have hpos : 0 < th.maxOutStandingMessages := hC
  constructor
  · intro order hperm
    have hnd : order.Nodup := hperm.nodup_iff.mpr (by simp [h₁₂, h₁₃, h₂₃])
    have hmb : ∀ S ∈ order, ∃ c,
        mailbox (stepAll th [.ADD_SUB T S₁, .ADD_SUB T S₂, .ADD_SUB T S₃, .POST_MSG T msg]) T S
          = some { cap := c, buf := [msg] } := by
      intro S hS
      refine ⟨th.maxOutStandingMessages, ?_⟩
      have hS' : S ∈ [S₁, S₂, S₃] := hperm.mem_iff.mp hS
      simp only [stepAll_cons, stepAll_nil]
      rw [mailbox_POST_MSG_self]
      have hmk : mailbox (step (step (step th (.ADD_SUB T S₁)) (.ADD_SUB T S₂)) (.ADD_SUB T S₃))
          T S = some (Chan.make th.maxOutStandingMessages) := by
        simp only [List.mem_cons, List.mem_singleton, List.not_mem_nil, or_false] at hS'
        rcases hS' with rfl | rfl | rfl
        · rw [mailbox_ADD_SUB_other _ (Or.inr h₁₃.symm), mailbox_ADD_SUB_other _ (Or.inr h₁₂.symm),
            mailbox_ADD_SUB_self]
        · rw [mailbox_ADD_SUB_other _ (Or.inr h₂₃.symm), mailbox_ADD_SUB_self,
            step_maxOutStandingMessages]
        · rw [mailbox_ADD_SUB_self, step_maxOutStandingMessages, step_maxOutStandingMessages]
      rw [hmk, Option.map_some', Chan.trySend_of_lt _ _ (by simpa [Chan.make] using hpos)]
      rfl
    rw [responses_distinct_subscribers T msg order _ hnd hmb]
    have hlen : order.length = 3 := hperm.length_eq
    match order, hlen with
    | [_, _, _], _ => rfl
  · intro S₄ rs₀ rs msg₂ _ hrs
    have hcap₁ : (stepAll (stepAll th
        [.ADD_SUB T S₁, .ADD_SUB T S₂, .ADD_SUB T S₃, .POST_MSG T msg]) rs₀).maxOutStandingMessages
          = th.maxOutStandingMessages := by
      rw [stepAll_maxOutStandingMessages, stepAll_maxOutStandingMessages]
    generalize stepAll (stepAll th
      [.ADD_SUB T S₁, .ADD_SUB T S₂, .ADD_SUB T S₃, .POST_MSG T msg]) rs₀ = th₁ at hcap₁ ⊢
    have hm : mailbox (stepAll (step th₁ (.ADD_SUB T S₄)) rs) T S₄
        = some (Chan.make (step th₁ (.ADD_SUB T S₄)).maxOutStandingMessages) :=
      mailbox_stepAll_stays_empty T S₄ rs (step th₁ (.ADD_SUB T S₄))
        (fun r hr => ⟨(hrs r hr).1, (hrs r hr).2.1⟩)
        (by rw [step_maxOutStandingMessages]; exact mailbox_ADD_SUB_self th₁ T S₄)
    rw [step_maxOutStandingMessages, hcap₁] at hm
    refine ⟨getMsg_of_mailbox_nil _ T S₄ _ hm rfl, ?_⟩
    have hm₂ : mailbox (step (stepAll (step th₁ (.ADD_SUB T S₄)) rs) (.POST_MSG T msg₂)) T S₄
        = some { cap := th.maxOutStandingMessages, buf := [msg₂] } := by
      rw [mailbox_POST_MSG_self, hm, Option.map_some',
        Chan.trySend_of_lt _ _ (by simpa [Chan.make] using hpos)]
      rfl
    exact getMsg_of_mailbox_cons _ T S₄ _ msg₂ [] hm₂ rfl

/-- C6 on a capacity-1 worker: the Gets are made in the order `s3, s1, s2`; `s4` subscribes
after a Get, polls once, and then receives the next publication. -/
theorem fan_out_witness :
    responses (stepAll (newTopicHandler 1)
        [.ADD_SUB "t" "s1", .ADD_SUB "t" "s2", .ADD_SUB "t" "s3", .POST_MSG "t" ⟨"m", 1⟩])
        (["s3", "s1", "s2"].map (request.GET_MSG "t"))
      = [response.ok ⟨"m", 1⟩, response.ok ⟨"m", 1⟩, response.ok ⟨"m", 1⟩] ∧
    getMsg (stepAll (step (stepAll (stepAll (newTopicHandler 1)
        [.ADD_SUB "t" "s1", .ADD_SUB "t" "s2", .ADD_SUB "t" "s3", .POST_MSG "t" ⟨"m", 1⟩])
        [.GET_MSG "t" "s1"]) (.ADD_SUB "t" "s4")) [.GET_MSG "t" "s4"]) "t" "s4"
      = some (response.fail Error.ErrNoNewMessages) ∧
    getMsg (step (stepAll (step (stepAll (stepAll (newTopicHandler 1)
        [.ADD_SUB "t" "s1", .ADD_SUB "t" "s2", .ADD_SUB "t" "s3", .POST_MSG "t" ⟨"m", 1⟩])
        [.GET_MSG "t" "s1"]) (.ADD_SUB "t" "s4")) [.GET_MSG "t" "s4"])
        (.POST_MSG "t" ⟨"n", 2⟩)) "t" "s4" = some (response.ok ⟨"n", 2⟩) :=
  ⟨(fan_out (newTopicHandler 1) "t" "s1" "s2" "s3" ⟨"m", 1⟩
      (by decide) (by decide) (by decide) (by decide)).1 ["s3", "s1", "s2"] (by decide),
   (fan_out (newTopicHandler 1) "t" "s1" "s2" "s3" ⟨"m", 1⟩
      (by decide) (by decide) (by decide) (by decide)).2 "s4" [.GET_MSG "t" "s1"]
      [.GET_MSG "t" "s4"] ⟨"n", 2⟩ (by decide) (by simp)⟩

/-! ## C7: subscribing again resets the mailbox -/

theorem Chan.mem_trySend (ch : Chan) (v w : PubMessage) (h : w ∈ (ch.trySend v).buf) :
    w ∈ ch.buf ∨ w = v := by
  by_cases hlt : ch.buf.length < ch.cap
  · rw [Chan.trySend_of_lt ch v hlt] at h
    simpa using h
  · rw [Chan.trySend_of_not_lt ch v hlt] at h
    exact Or.inl h

theorem Chan.mem_afterRecv (ch : Chan) (w : PubMessage) (h : w ∈ ch.afterRecv.buf) :
    w ∈ ch.buf :=
  List.mem_of_mem_tail h

theorem getMsg_ok_mailbox (th : topicHandler) (T S : String) (v : PubMessage)
    (h : getMsg th T S = some (response.ok v)) :
    ∃ ch rest, mailbox th T S = some ch ∧ ch.buf = v :: rest := by
  rcases handle_GET_MSG_cases th T S with ⟨_, e⟩ | ⟨_, _, _, e⟩ | ⟨_, _, _, _, _, e⟩ |
    ⟨sm, ch, w, rest, hT, hS, hb, e⟩
  · simp [getMsg, e, response.ok] at h
  · simp [getMsg, e, response.ok] at h
  · simp [getMsg, e, response.ok] at h
  · simp only [getMsg, e, response.ok, Option.some.injEq, response.mk.injEq, and_true] at h
    subst h
    exact ⟨ch, rest, by simp [mailbox, hT, hS], hb⟩

/-- Every message in the mailbox of `(T, S)` after the requests `rs` was in it before or was
published to `T` by one of them. -/
theorem mailbox_stepAll_subset (T S : String) (rs : List request) :
    ∀ (th : topicHandler) (base : List PubMessage),
      (∀ ch, mailbox th T S = some ch → ∀ v ∈ ch.buf, v ∈ base) →
      ∀ ch, mailbox (stepAll th rs) T S = some ch →
        ∀ v ∈ ch.buf, v ∈ base ++ publishedTo T rs := by
  induction rs with
  | nil =>
    intro th base h ch hm v hv
    simpa [publishedTo] using h ch hm v hv
  | cons r rs ih =>
    intro th base h ch hm v hv
    rw [stepAll_cons] at hm
    cases r with
    | ADD_SUB T' S' =>
      have := ih (step th (.ADD_SUB T' S')) base (by
        intro ch' hm' w hw
        by_cases hk : T' = T ∧ S' = S
        · obtain ⟨rfl, rfl⟩ := hk
          rw [mailbox_ADD_SUB_self] at hm'
          cases hm'
          cases hw
        · rw [mailbox_ADD_SUB_other th (not_and_or.mp hk)] at hm'
          exact h ch' hm' w hw) ch hm v hv
      simpa [publishedTo] using this
    | DEL_SUB T' S' =>
      have := ih (step th (.DEL_SUB T' S')) base (by
        intro ch' hm' w hw
        by_cases hk : T' = T ∧ S' = S
        · obtain ⟨rfl, rfl⟩ := hk
          rw [mailbox_DEL_SUB_self] at hm'
          cases hm'
        · rw [mailbox_DEL_SUB_other th (not_and_or.mp hk)] at hm'
          exact h ch' hm' w hw) ch hm v hv
      simpa [publishedTo] using this
    | GET_MSG T' S' =>
      have := ih (step th (.GET_MSG T' S')) base (by
        intro ch' hm' w hw
        by_cases hk : T' = T ∧ S' = S
        · obtain ⟨rfl, rfl⟩ := hk
          rw [mailbox_GET_MSG_self] at hm'
          cases hc : mailbox th T' S' with
          | none => rw [hc] at hm'; cases hm'
          | some c =>
            rw [hc] at hm'
            cases hm'
            exact h c hc w (Chan.mem_afterRecv c w hw)
        · rw [mailbox_GET_MSG_other th (not_and_or.mp hk)] at hm'
          exact h ch' hm' w hw) ch hm v hv
      simpa [publishedTo] using this
    | CLOSE_QUEUE =>
      have := ih (step th .CLOSE_QUEUE) base h ch hm v hv
      simpa [publishedTo] using this
    | POST_MSG T' m =>
      by_cases hT : T' = T
      · subst hT
        have := ih (step th (.POST_MSG T' m)) (base ++ [m]) (by
          intro ch' hm' w hw
          rw [mailbox_POST_MSG_self] at hm'
          cases hc : mailbox th T' S with
          | none => rw [hc] at hm'; cases hm'
          | some c =>
            rw [hc] at hm'
            cases hm'
            rcases Chan.mem_trySend c m w hw with hw' | rfl
            · exact List.mem_append_left _ (h c hc w hw')
            · simp) ch hm v hv
        simpa [publishedTo] using this
      · have := ih (step th (.POST_MSG T' m)) base (by
          intro ch' hm' w hw
          rw [mailbox_POST_MSG_ne th S m hT] at hm'
          exact h ch' hm' w hw) ch hm v hv
        simpa [publishedTo, hT] using this

/-- C7: processing `Subscribe(T, S)`, whether or not `(T, S)` was subscribed and whatever its
mailbox held, leaves `(T, S)` subscribed with an empty mailbox of the worker's capacity, so the
next `Get(T, S)` returns `ErrNoNewMessages`; every message a later `Get(T, S)` returns was
published to `T` after the subscription (none comes from the earlier mailbox); the other
subscribers of `T` keep their mailboxes. -/
theorem resubscribe_resets (th : topicHandler) (T S : String) :
    mailbox (step th (.ADD_SUB T S)) T S = some (Chan.make th.maxOutStandingMessages) ∧
    getMsg (step th (.ADD_SUB T S)) T S = some (response.fail Error.ErrNoNewMessages) ∧
    (∀ (rs : List request) (v : PubMessage), request.CLOSE_QUEUE ∉ rs →
      getMsg (stepAll (step th (.ADD_SUB T S)) rs) T S = some (response.ok v) →
      v ∈ publishedTo T rs) ∧
    (∀ S', S' ≠ S → mailbox (step th (.ADD_SUB T S)) T S' = mailbox th T S') := by
  refine ⟨mailbox_ADD_SUB_self th T S,
    getMsg_of_mailbox_nil _ T S _ (mailbox_ADD_SUB_self th T S) rfl, ?_, ?_⟩
  · intro rs v _ hget
    obtain ⟨ch, rest, hm, hb⟩ := getMsg_ok_mailbox _ T S v hget
    have := mailbox_stepAll_subset T S rs (step th (.ADD_SUB T S)) [] (by
      intro ch' hm' w hw
      rw [mailbox_ADD_SUB_self] at hm'
      cases hm'
      cases hw) ch hm v (by rw [hb]; exact List.mem_cons_self v rest)
    simpa using this
  · intro S' hS'
    exact mailbox_ADD_SUB_other th (Or.inr (Ne.symm hS'))

/-- C7 on a worker where `s` holds two messages and `o` holds one: after `s` subscribes again
its mailbox is empty, the mailbox of `o` is as before, and the message `s` gets after a new
publication is the new one. -/
theorem resubscribe_resets_witness :
    mailbox (step ⟨[("t", [("s", ⟨2, [⟨"a", 1⟩, ⟨"b", 2⟩]⟩), ("o", ⟨2, [⟨"a", 1⟩]⟩)])], 2⟩
        (.ADD_SUB "t" "s")) "t" "o" = some ⟨2, [⟨"a", 1⟩]⟩ ∧
    (⟨"c", 3⟩ : PubMessage) ∈ publishedTo "t" [.POST_MSG "t" ⟨"c", 3⟩] :=
  ⟨(resubscribe_resets
      ⟨[("t", [("s", ⟨2, [⟨"a", 1⟩, ⟨"b", 2⟩]⟩), ("o", ⟨2, [⟨"a", 1⟩]⟩)])], 2⟩ "t" "s").2.2.2
      "o" (by decide),
   (resubscribe_resets
      ⟨[("t", [("s", ⟨2, [⟨"a", 1⟩, ⟨"b", 2⟩]⟩), ("o", ⟨2, [⟨"a", 1⟩]⟩)])], 2⟩ "t" "s").2.2.1
      [.POST_MSG "t" ⟨"c", 3⟩] ⟨"c", 3⟩ (by decide) (by decide)⟩

/-! ## C8: a Get after an unsubscription -/

/-- C8: when `S` is subscribed to `T`, after processing `UnSubscribe(T, S)` a `Get(T, S)`
returns `ErrSubNotFound`, whatever the mailbox of `S` held and whether or not `T` has other
subscribers; the other subscribers of `T` keep their mailboxes. -/
theorem unsubscribe_then_get (th : topicHandler) (T S : String) (ch : Chan)
    (hsub : mailbox th T S = some ch) :
    getMsg (step th (.DEL_SUB T S)) T S = some (response.fail Error.ErrSubNotFound) ∧
    (∀ S', S' ≠ S → mailbox (step th (.DEL_SUB T S)) T S' = mailbox th T S') := by
  constructor
  · apply getMsg_sub_absent _ T S _ (mailbox_DEL_SUB_self th T S)
    simp only [hasTopic, topicMap_DEL_SUB_self]
    cases hT : mapGet th.topicMap T with
    | none => simp [mailbox, hT] at hsub
    | some subMap => rfl
  · intro S' hS'
    exact mailbox_DEL_SUB_other th (Or.inr (Ne.symm hS'))

/-- C8 on a worker where `s` holds a message and `o` is another subscriber of `t`. -/
theorem unsubscribe_then_get_witness :
    getMsg (step ⟨[("t", [("s", ⟨2, [⟨"a", 1⟩]⟩), ("o", ⟨2, [⟨"a", 1⟩]⟩)])], 2⟩
        (.DEL_SUB "t" "s")) "t" "s" = some (response.fail Error.ErrSubNotFound) ∧
    mailbox (step ⟨[("t", [("s", ⟨2, [⟨"a", 1⟩]⟩), ("o", ⟨2, [⟨"a", 1⟩]⟩)])], 2⟩
        (.DEL_SUB "t" "s")) "t" "o" = some ⟨2, [⟨"a", 1⟩]⟩ :=
  ⟨(unsubscribe_then_get ⟨[("t", [("s", ⟨2, [⟨"a", 1⟩]⟩), ("o", ⟨2, [⟨"a", 1⟩]⟩)])], 2⟩
      "t" "s" ⟨2, [⟨"a", 1⟩]⟩ (by decide)).1,
   (unsubscribe_then_get ⟨[("t", [("s", ⟨2, [⟨"a", 1⟩]⟩), ("o", ⟨2, [⟨"a", 1⟩]⟩)])], 2⟩
      "t" "s" ⟨2, [⟨"a", 1⟩]⟩ (by decide)).2 "o" (by decide)⟩

/-! ## Presence of a topic in the topic map -/

theorem hasTopic_GET_MSG (th : topicHandler) (T S T' : String) :
    hasTopic (step th (.GET_MSG T S)) T' = hasTopic th T' := by
  by_cases hT : T = T'
  · subst hT
    rcases handle_GET_MSG_cases th T S with ⟨_, e⟩ | ⟨_, _, _, e⟩ | ⟨_, _, _, _, _, e⟩ |
      ⟨sm, ch, v, rest, hT, _, _, e⟩
    · simp only [step, e]
    · simp only [step, e]
    · simp only [step, e]
    · simp [hasTopic, step, e, mapGet_mapModify_self, hT]
  · simp only [hasTopic, topicMap_GET_MSG_ne th S hT]

/-- A topic is a key after a request exactly when it was one before or the request subscribes
to it. -/
theorem hasTopic_step (th : topicHandler) (r : request) (T : String) :
    hasTopic (step th r) T = true ↔ hasTopic th T = true ∨ ∃ S, r = .ADD_SUB T S := by
  cases r with
  | ADD_SUB T' S' =>
    by_cases hT : T' = T
    · subst hT
      simp [hasTopic, topicMap_ADD_SUB_self]
    · simp [hasTopic, topicMap_ADD_SUB_ne th S' hT, hT]
  | DEL_SUB T' S' =>
    by_cases hT : T' = T
    · subst hT
      simp [hasTopic, topicMap_DEL_SUB_self]
    · simp [hasTopic, topicMap_DEL_SUB_ne th S' hT]
  | POST_MSG T' v =>
    by_cases hT : T' = T
    · subst hT
      simp [hasTopic, topicMap_POST_MSG_self]
    · simp [hasTopic, topicMap_POST_MSG_ne th v hT]
  | GET_MSG T' S' => simp [hasTopic_GET_MSG]
  | CLOSE_QUEUE => simp [step, handle]

theorem hasTopic_stepAll (rs : List request) (T : String) :
    ∀ th : topicHandler,
      hasTopic (stepAll th rs) T = true ↔ hasTopic th T = true ∨ ∃ S, .ADD_SUB T S ∈ rs := by
  induction rs with
  | nil => intro th; simp [stepAll_nil]
  | cons r rs ih =>
    intro th
    rw [stepAll_cons, ih, hasTopic_step]
    constructor
    · rintro ((h | ⟨S, rfl⟩) | ⟨S, hS⟩)
      · exact Or.inl h
      · exact Or.inr ⟨S, List.mem_cons_self _ _⟩
      · exact Or.inr ⟨S, List.mem_cons_of_mem _ hS⟩
    · rintro (h | ⟨S, hS⟩)
      · exact Or.inl (Or.inl h)
      · rcases List.mem_cons.mp hS with rfl | hS'
        · exact Or.inl (Or.inr ⟨S, rfl⟩)
        · exact Or.inr ⟨S, hS'⟩

theorem hasTopic_stepAll_new (C : Nat) (rs : List request) (T : String) :
    hasTopic (stepAll (newTopicHandler C) rs) T = true ↔ ∃ S, .ADD_SUB T S ∈ rs := by
  rw [hasTopic_stepAll]
  simp [hasTopic, newTopicHandler, mapGet]

theorem getMsg_topicNotFound_iff (th : topicHandler) (T S : String) :
    getMsg th T S = some (response.fail Error.ErrTopicNotFound) ↔ hasTopic th T = false := by
  rcases handle_GET_MSG_cases th T S with ⟨hT, e⟩ | ⟨_, hT, _, e⟩ | ⟨_, _, hT, _, _, e⟩ |
    ⟨_, _, _, _, hT, _, _, e⟩ <;> simp [getMsg, e, response.fail, hasTopic, hT]

theorem mapDelete_last {V : Type} (m : List (String × V)) (k : String)
    (h : ∀ k', k' ≠ k → mapGet m k' = none) : mapDelete m k = [] := by
  induction m with
  | nil => rfl
  | cons e m ih =>
    obtain ⟨k₀, v₀⟩ := e
    by_cases h₀ : k₀ = k
    · rw [mapDelete_cons, if_pos h₀]
      apply ih
      intro k' hk'
      have := h k' hk'
      rwa [mapGet_cons, if_neg (by rw [h₀]; exact Ne.symm hk')] at this
    · have := h k₀ h₀
      rw [mapGet_cons, if_pos rfl] at this
      cases this

/-! ## C9: a Get on a topic without subscribers -/

/-- C9, as stated, fails: on the worker that processed `Subscribe(t, s)` and then
`UnSubscribe(t, s)`, topic `t` has no subscriber at all (its subscriber map is empty), yet
`Get(t, s)` returns `ErrSubNotFound`, not `ErrTopicNotFound`. -/
theorem last_unsubscribe_get_counterexample :
    mapGet (stepAll (newTopicHandler 1) [.ADD_SUB "t" "s", .DEL_SUB "t" "s"]).topicMap "t"
      = some [] ∧
    (∀ S, mailbox (stepAll (newTopicHandler 1) [.ADD_SUB "t" "s", .DEL_SUB "t" "s"]) "t" S
      = none) ∧
    getMsg (stepAll (newTopicHandler 1) [.ADD_SUB "t" "s", .DEL_SUB "t" "s"]) "t" "s"
      = some (response.fail Error.ErrSubNotFound) ∧
    getMsg (stepAll (newTopicHandler 1) [.ADD_SUB "t" "s", .DEL_SUB "t" "s"]) "t" "s"
      ≠ some (response.fail Error.ErrTopicNotFound) := by
  have e : stepAll (newTopicHandler 1) [.ADD_SUB "t" "s", .DEL_SUB "t" "s"]
      = { topicMap := [("t", [])], maxOutStandingMessages := 1 } := by decide
  refine ⟨by decide, ?_, by decide, by decide⟩
  intro S
  rw [e]
  rfl

/-- C9, amended: in every state reached from the empty worker state by Subscribe, Unsubscribe,
Publish and Get requests, when `T` has no subscriber at all, `Get(T, S)` returns
`ErrTopicNotFound` if no `Subscribe(T, _)` was ever processed, and `ErrSubNotFound` if one was
(every subscriber of `T` has since unsubscribed). -/
theorem get_without_subscribers (C : Nat) (rs : List request) (T S : String)
    (hrs : request.CLOSE_QUEUE ∉ rs)
    (hnone : ∀ S', mailbox (stepAll (newTopicHandler C) rs) T S' = none) :
    ((∀ S', request.ADD_SUB T S' ∉ rs) →
      getMsg (stepAll (newTopicHandler C) rs) T S
        = some (response.fail Error.ErrTopicNotFound)) ∧
    ((∃ S', request.ADD_SUB T S' ∈ rs) →
      getMsg (stepAll (newTopicHandler C) rs) T S
        = some (response.fail Error.ErrSubNotFound)) := by
  constructor
  · intro h
    rw [getMsg_topicNotFound_iff, ← Bool.not_eq_true, hasTopic_stepAll_new]
    rintro ⟨S', hS'⟩
    exact h S' hS'
  · intro h
    exact getMsg_sub_absent _ T S ((hasTopic_stepAll_new C rs T).mpr h) (hnone S)

/-- C9 amended, on a topic never subscribed to and on a topic whose only subscriber left. -/
theorem get_without_subscribers_witness :
    getMsg (stepAll (newTopicHandler 1) [.ADD_SUB "t" "s", .DEL_SUB "t" "s"]) "u" "s"
      = some (response.fail Error.ErrTopicNotFound) ∧
    getMsg (stepAll (newTopicHandler 1) [.ADD_SUB "t" "s", .DEL_SUB "t" "s"]) "t" "s"
      = some (response.fail Error.ErrSubNotFound) :=
  ⟨(get_without_subscribers 1 [.ADD_SUB "t" "s", .DEL_SUB "t" "s"] "u" "s" (by decide)
      (fun _ => rfl)).1 (by simp),
   (get_without_subscribers 1 [.ADD_SUB "t" "s", .DEL_SUB "t" "s"] "t" "s" (by decide)
      (fun _ => rfl)).2 ⟨"s", by decide⟩⟩

/-! ## C10: a topic entry is never removed -/

/-- C10: after any sequence `rs` of Subscribe, Unsubscribe, Publish and Get requests processed
from the empty worker state, `T` is a key of the topic map if and only if `rs` contains some
`Subscribe(T, _)`, and `Get(T, S)` differs from `ErrTopicNotFound` under the same condition; and
unsubscribing the last subscriber `S` of `T` leaves `T` in the map with an empty subscriber
map. -/
theorem topic_never_removed (C : Nat) (rs : List request) (T : String)
    (hrs : request.CLOSE_QUEUE ∉ rs) :
    (hasTopic (stepAll (newTopicHandler C) rs) T = true ↔ ∃ S, request.ADD_SUB T S ∈ rs) ∧
    (∀ S, getMsg (stepAll (newTopicHandler C) rs) T S
        ≠ some (response.fail Error.ErrTopicNotFound) ↔ ∃ S', request.ADD_SUB T S' ∈ rs) ∧
    (∀ S subMap, mapGet (stepAll (newTopicHandler C) rs).topicMap T = some subMap →
      (∀ S', S' ≠ S → mapGet subMap S' = none) →
      mapGet (step (stepAll (newTopicHandler C) rs) (.DEL_SUB T S)).topicMap T = some []) := by
  refine ⟨hasTopic_stepAll_new C rs T, ?_, ?_⟩
  · intro S
    rw [Ne, getMsg_topicNotFound_iff, Bool.not_eq_false, hasTopic_stepAll_new]
  · intro S subMap hT hlast
    rw [topicMap_DEL_SUB_self, hT, Option.map_some', mapDelete_last subMap S hlast]

/-- C10 on the worker that processed `Subscribe(t, s)`, a publication and a Get: `t` is a key,
and unsubscribing `s`, its only subscriber, leaves `t` bound to the empty subscriber map. -/
theorem topic_never_removed_witness :
    hasTopic (stepAll (newTopicHandler 1)
        [.ADD_SUB "t" "s", .POST_MSG "t" ⟨"m", 1⟩, .GET_MSG "t" "s"]) "t" = true ∧
    mapGet (step (stepAll (newTopicHandler 1)
        [.ADD_SUB "t" "s", .POST_MSG "t" ⟨"m", 1⟩, .GET_MSG "t" "s"])
        (.DEL_SUB "t" "s")).topicMap "t" = some [] :=
  ⟨(topic_never_removed 1 [.ADD_SUB "t" "s", .POST_MSG "t" ⟨"m", 1⟩, .GET_MSG "t" "s"] "t"
      (by decide)).1.mpr ⟨"s", by decide⟩,
   (topic_never_removed 1 [.ADD_SUB "t" "s", .POST_MSG "t" ⟨"m", 1⟩, .GET_MSG "t" "s"] "t"
      (by decide)).2.2 "s" [("s", ⟨1, []⟩)] (by decide) (by
        intro S' hS'
        simp [mapGet, Ne.symm hS'])⟩

/-! ## C11: unsubscribing an absent registration -/

theorem mapDelete_absent {V : Type} (m : List (String × V)) (k : String)
    (h : mapGet m k = none) : mapDelete m k = m := by
  induction m with
  | nil => rfl
  | cons e m ih =>
    obtain ⟨k₀, v₀⟩ := e
    rw [mapGet_cons] at h
    by_cases h₀ : k₀ = k
    · rw [if_pos h₀] at h
      cases h
    · rw [if_neg h₀] at h
      rw [mapDelete_cons, if_neg h₀, ih h]

theorem mapDelete_mapDelete {V : Type} (m : List (String × V)) (k : String) :
    mapDelete (mapDelete m k) k = mapDelete m k :=
  mapDelete_absent _ k (mapGet_mapDelete_self m k)

theorem mapModify_mapModify {V : Type} (m : List (String × V)) (k : String) (f g : V → V) :
    mapModify (mapModify m k f) k g = mapModify m k (fun v => g (f v)) := by
  induction m with
  | nil => rfl
  | cons e m ih =>
    obtain ⟨k₀, v₀⟩ := e
    by_cases h₀ : k₀ = k
    · rw [mapModify_cons, if_pos h₀, mapModify_cons, if_pos h₀, mapModify_cons, if_pos h₀, ih]
    · rw [mapModify_cons, if_neg h₀, mapModify_cons, if_neg h₀, mapModify_cons, if_neg h₀, ih]

theorem mapGet_eq_none_of_not_mem_keys {V : Type} (m : List (String × V)) (k : String)
    (h : k ∉ m.map Prod.fst) : mapGet m k = none := by
  induction m with
  | nil => rfl
  | cons e m ih =>
    obtain ⟨k₀, v₀⟩ := e
    simp only [List.map_cons, List.mem_cons, not_or] at h
    rw [mapGet_cons, if_neg (fun c => h.1 c.symm), ih h.2]

/-- In a map whose keys are pairwise distinct, mutating the value of `k` by a function that
fixes the value `mapGet` finds changes nothing. -/
theorem mapModify_fixed {V : Type} (m : List (String × V)) (k : String) (f : V → V) (v : V)
    (hnd : (m.map Prod.fst).Nodup) (hget : mapGet m k = some v) (hf : f v = v) :
    mapModify m k f = m := by
  induction m with
  | nil => rfl
  | cons e m ih =>
    obtain ⟨k₀, v₀⟩ := e
    simp only [List.map_cons, List.nodup_cons] at hnd
    rw [mapGet_cons] at hget
    by_cases h₀ : k₀ = k
    · rw [if_pos h₀] at hget
      cases hget
      subst h₀
      rw [mapModify_cons, if_pos rfl, hf,
        mapModify_absent m k₀ f (mapGet_eq_none_of_not_mem_keys m k₀ hnd.1)]
    · rw [if_neg h₀] at hget
      rw [mapModify_cons, if_neg h₀, ih hnd.2 hget]

theorem keys_mapModify {V : Type} (m : List (String × V)) (k : String) (f : V → V) :
    (mapModify m k f).map Prod.fst = m.map Prod.fst := by
  induction m with
  | nil => rfl
  | cons e m ih =>
    obtain ⟨k₀, v₀⟩ := e
    by_cases h₀ : k₀ = k
    · rw [mapModify_cons, if_pos h₀, List.map_cons, List.map_cons, ih]
    · rw [mapModify_cons, if_neg h₀, List.map_cons, List.map_cons, ih]

theorem keys_mapSet_absent {V : Type} (m : List (String × V)) (k : String) (v : V)
    (h : mapGet m k = none) : (mapSet m k v).map Prod.fst = m.map Prod.fst ++ [k] := by
  induction m with
  | nil => rfl
  | cons e m ih =>
    obtain ⟨k₀, v₀⟩ := e
    rw [mapGet_cons] at h
    by_cases h₀ : k₀ = k
    · rw [if_pos h₀] at h
      cases h
    · rw [if_neg h₀] at h
      rw [mapSet_cons, if_neg h₀, List.map_cons, List.map_cons, ih h, List.cons_append]

theorem not_mem_keys_of_mapGet_eq_none {V : Type} (m : List (String × V)) (k : String)
    (h : mapGet m k = none) : k ∉ m.map Prod.fst := by
  induction m with
  | nil => simp
  | cons e m ih =>
    obtain ⟨k₀, v₀⟩ := e
    rw [mapGet_cons] at h
    by_cases h₀ : k₀ = k
    · rw [if_pos h₀] at h
      cases h
    · rw [if_neg h₀] at h
      simp only [List.map_cons, List.mem_cons, not_or]
      exact ⟨fun c => h₀ c.symm, ih h⟩

/-- One request keeps the topics of the topic map pairwise distinct. -/
theorem step_keys_nodup (th : topicHandler) (r : request)
    (h : (th.topicMap.map Prod.fst).Nodup) : ((step th r).topicMap.map Prod.fst).Nodup := by
  cases r with
  | ADD_SUB T S =>
    simp only [step, handle, keys_mapModify]
    cases hT : mapGet th.topicMap T with
    | some subMap => exact h
    | none =>
      simp only [keys_mapSet_absent _ T _ hT]
      exact List.Nodup.append h (List.nodup_singleton T)
        (by simpa using not_mem_keys_of_mapGet_eq_none _ T hT)
  | DEL_SUB T S =>
    simp only [step, handle]
    cases hT : mapGet th.topicMap T with
    | some subMap => simpa only [keys_mapModify] using h
    | none => exact h
  | POST_MSG T v => simpa only [step, handle, keys_mapModify] using h
  | GET_MSG T S =>
    rcases handle_GET_MSG_cases th T S with ⟨_, e⟩ | ⟨_, _, _, e⟩ | ⟨_, _, _, _, _, e⟩ |
      ⟨_, _, _, _, _, _, _, e⟩
    · simpa only [step, e] using h
    · simpa only [step, e] using h
    · simpa only [step, e] using h
    · simpa only [step, e, keys_mapModify] using h
  | CLOSE_QUEUE => exact h

/-- Every state reached from the empty worker state has pairwise distinct topics. -/
theorem stepAll_keys_nodup (rs : List request) :
    ∀ th : topicHandler, (th.topicMap.map Prod.fst).Nodup →
      ((stepAll th rs).topicMap.map Prod.fst).Nodup := by
  induction rs with
  | nil => intro th h; exact h
  | cons r rs ih =>
    intro th h
    rw [stepAll_cons]
    exact ih (step th r) (step_keys_nodup th r h)

/-- C11: when `T` is unknown or `S` is not subscribed to `T`, processing `UnSubscribe(T, S)`
sends no response and leaves the worker state as it is: every lookup in the topic map gives the
same subscriber map with the same mailboxes, and the state itself is equal when no topic is
bound twice in the topic map, as in every state reached from the empty one. Processing
`UnSubscribe(T, S)` twice in a row gives the same state as processing it once, in every
state. -/
theorem unsubscribe_absent_noop (th : topicHandler) (T S : String) :
    (mailbox th T S = none →
      (handle th (.DEL_SUB T S)).2 = none ∧
      (∀ T', mapGet (step th (.DEL_SUB T S)).topicMap T' = mapGet th.topicMap T') ∧
      (step th (.DEL_SUB T S)).maxOutStandingMessages = th.maxOutStandingMessages ∧
      ((th.topicMap.map Prod.fst).Nodup → step th (.DEL_SUB T S) = th)) ∧
    (∀ (C : Nat) (rs : List request), th = stepAll (newTopicHandler C) rs →
      mailbox th T S = none → step th (.DEL_SUB T S) = th) ∧
    step (step th (.DEL_SUB T S)) (.DEL_SUB T S) = step th (.DEL_SUB T S) := by
  have hfix : ∀ subMap, mapGet th.topicMap T = some subMap → mailbox th T S = none →
      mapDelete subMap S = subMap := by
    intro subMap hT habs
    apply mapDelete_absent
    simpa [mailbox, hT] using habs
  have heq : mailbox th T S = none → (th.topicMap.map Prod.fst).Nodup →
      step th (.DEL_SUB T S) = th := by
    intro habs hnd
    simp only [step, handle]
    cases hT : mapGet th.topicMap T with
    | none => rfl
    | some subMap =>
      simp only
      rw [mapModify_fixed th.topicMap T (fun subMap => mapDelete subMap S) subMap hnd hT
        (hfix subMap hT habs)]
  refine ⟨fun habs => ⟨?_, ?_, step_maxOutStandingMessages th _, heq habs⟩, ?_, ?_⟩
  · simp only [handle]
    cases mapGet th.topicMap T <;> rfl
  · intro T'
    by_cases hTT : T = T'
    · subst hTT
      rw [topicMap_DEL_SUB_self]
      cases hT : mapGet th.topicMap T with
      | none => rfl
      | some subMap => rw [Option.map_some', hfix subMap hT habs]
    · exact topicMap_DEL_SUB_ne th S hTT
  · intro C rs hth habs
    apply heq habs
    rw [hth]
    exact stepAll_keys_nodup rs (newTopicHandler C) (by simp [newTopicHandler])
  · simp only [step, handle]
    cases hT : mapGet th.topicMap T with
    | none => simp only [hT]
    | some subMap =>
      simp only [mapGet_mapModify_self, hT, Option.map_some', mapModify_mapModify,
        mapDelete_mapDelete]

/-- C11 on a worker where `t` has the subscriber `o` only: unsubscribing `s` from `t` and
unsubscribing from the unknown topic `u` both leave the state as it is. -/
theorem unsubscribe_absent_noop_witness :
    step ⟨[("t", [("o", ⟨2, [⟨"a", 1⟩]⟩)])], 2⟩ (.DEL_SUB "t" "s")
      = ⟨[("t", [("o", ⟨2, [⟨"a", 1⟩]⟩)])], 2⟩ ∧
    step ⟨[("t", [("o", ⟨2, [⟨"a", 1⟩]⟩)])], 2⟩ (.DEL_SUB "u" "o")
      = ⟨[("t", [("o", ⟨2, [⟨"a", 1⟩]⟩)])], 2⟩ ∧
    step (stepAll (newTopicHandler 2) [.ADD_SUB "t" "o"]) (.DEL_SUB "t" "s")
      = stepAll (newTopicHandler 2) [.ADD_SUB "t" "o"] :=
  ⟨((unsubscribe_absent_noop ⟨[("t", [("o", ⟨2, [⟨"a", 1⟩]⟩)])], 2⟩ "t" "s").1
      (by decide)).2.2.2 (by decide),
   ((unsubscribe_absent_noop ⟨[("t", [("o", ⟨2, [⟨"a", 1⟩]⟩)])], 2⟩ "u" "o").1
      (by decide)).2.2.2 (by decide),
   (unsubscribe_absent_noop (stepAll (newTopicHandler 2) [.ADD_SUB "t" "o"]) "t" "s").2.1
      2 [.ADD_SUB "t" "o"] rfl (by decide)⟩

/-! ## C12: a publication never creates a topic -/

/-- C12: when `T` is not a key of the topic map, processing `Publish(T, msg)` sends no response
and leaves the worker state equal to what it was, so `Get(T, S)` still returns
`ErrTopicNotFound` for every `S`, and a subscriber that subscribes to `T` afterwards gets
`ErrNoNewMessages`, not `msg`. -/
theorem publish_unknown_topic (th : topicHandler) (T : String) (msg : PubMessage)
    (hT : mapGet th.topicMap T = none) :
    handle th (.POST_MSG T msg) = (th, none) ∧
    (∀ S, getMsg (step th (.POST_MSG T msg)) T S
      = some (response.fail Error.ErrTopicNotFound)) ∧
    (∀ S, getMsg (step (step th (.POST_MSG T msg)) (.ADD_SUB T S)) T S
      = some (response.fail Error.ErrNoNewMessages)) := by
  have h : handle th (.POST_MSG T msg) = (th, none) := by
    simp only [handle, mapModify_absent th.topicMap T _ hT]
  refine ⟨h, ?_, ?_⟩
  · intro S
    simp only [step, h]
    exact getMsg_topic_absent th T S hT
  · intro S
    exact getMsg_of_mailbox_nil _ T S _ (mailbox_ADD_SUB_self _ T S) rfl

/-- C12 on a worker that knows topic `t` only: a publication to `u` changes nothing. -/
theorem publish_unknown_topic_witness :
    handle ⟨[("t", [("o", ⟨2, []⟩)])], 2⟩ (.POST_MSG "u" ⟨"m", 1⟩)
      = (⟨[("t", [("o", ⟨2, []⟩)])], 2⟩, none) :=
  (publish_unknown_topic ⟨[("t", [("o", ⟨2, []⟩)])], 2⟩ "u" ⟨"m", 1⟩ (by decide)).1

/-! ## C13 and C14: the number of shard workers -/

/-- With between 1 and `2^32` CPUs, `NewPubSub` makes `numCPU - 1` event queues and workers. -/
theorem NewPubSub_maxWorkers (n C : Nat) (h₁ : 1 ≤ n) (h₂ : n ≤ 2 ^ 32) :
    (NewPubSub (n : Int) C).1.maxWorkers = n - 1 ∧
    (NewPubSub (n : Int) C).1.topicHandlerChannelLst.length = n - 1 ∧
    (NewPubSub (n : Int) C).2.length = n - 1 := by
  have e : (((n : Int) - 1) % 2 ^ 32).toNat = n - 1 := by
    have h : ((n : Int) - 1) = ((n - 1 : Nat) : Int) := by omega
    rw [h]
    have h' : (((n - 1 : Nat) : Int) % 2 ^ 32) = ((n - 1 : Nat) : Int) :=
      Int.emod_eq_of_lt (by omega) (by omega)
    rw [h']
    exact Int.toNat_natCast _
  simp only [NewPubSub, e, List.length_replicate, and_self]

/-- C13, the code at the failing input: with one CPU, `NewPubSub` sets `maxWorkers` to
`uint32(1 - 1) = 0`, makes no event queue and starts no worker, where the claim has one
worker. -/
theorem NewPubSub_single_cpu (C : Nat) :
    (NewPubSub 1 C).1.maxWorkers = 0 ∧
    (NewPubSub 1 C).1.topicHandlerChannelLst = [] ∧
    (NewPubSub 1 C).2 = [] := by
  refine ⟨?_, ?_, ?_⟩ <;> rfl

/-- With at least one worker the shard index is defined and below the number of workers. -/
theorem getHashIdx_lt (N : Nat) (topic : String) (hN : 1 ≤ N) :
    ∃ idx, getHashIdx N topic = some idx ∧ idx < N := by
  refine ⟨sum32aWrite New32a (bytesOf topic) % N, ?_, Nat.mod_lt _ hN⟩
  simp only [getHashIdx]
  rw [if_neg (by omega)]

/-- C14, the code at the failing input: on the broker `NewPubSub` makes with one CPU,
`getHashIdx` divides by `maxWorkers = 0` for every topic, so it has no value and `Subscribe`,
`UnSubscribe`, `Publish` and `Get` panic. -/
theorem getHashIdx_single_cpu (C : Nat) (T S : String) (msg : PubMessage) :
    getHashIdx (NewPubSub 1 C).1.maxWorkers T = none ∧
    (NewPubSub 1 C).1.Subscribe T S = none ∧
    (NewPubSub 1 C).1.UnSubscribe T S = none ∧
    (NewPubSub 1 C).1.Publish T msg = none ∧
    (NewPubSub 1 C).1.Get T S = none := by
  have h : getHashIdx (NewPubSub 1 C).1.maxWorkers T = none := rfl
  refine ⟨h, ?_, ?_, ?_, ?_⟩ <;>
    simp only [PubSub.Subscribe, PubSub.UnSubscribe, PubSub.Publish, PubSub.Get, PubSub.sendTo, h]

/-! ## C15: routing by topic -/

theorem sendTo_eq (pb : PubSub) (T : String) (r : request) (idx : Nat) (q : EventQueue)
    (hidx : getHashIdx pb.maxWorkers T = some idx)
    (hq : pb.topicHandlerChannelLst[idx]? = some q) (hopen : q.closed = false) :
    pb.sendTo T r = some { pb with topicHandlerChannelLst :=
      (pb.topicHandlerChannelLst.set idx { q with buf := q.buf ++ [r] }) } := by
  simp [PubSub.sendTo, hidx, hq, EventQueue.send, hopen]

theorem sendTo_maxWorkers (pb pb' : PubSub) (T : String) (r : request)
    (h : pb.sendTo T r = some pb') :
    pb'.maxWorkers = pb.maxWorkers ∧
    pb'.topicHandlerChannelLst.length = pb.topicHandlerChannelLst.length := by
  simp only [PubSub.sendTo] at h
  cases hidx : getHashIdx pb.maxWorkers T with
  | none => simp [hidx] at h
  | some idx =>
    cases hq : pb.topicHandlerChannelLst[idx]? with
    | none => simp [hidx, hq] at h
    | some q =>
      cases hs : q.send r with
      | none => simp [hidx, hq, hs] at h
      | some q' =>
        simp only [hidx, hq, hs, Option.some.injEq] at h
        subst h
        simp

/-- C15: on a broker with `N ≥ 1` workers and open queues, the shard index of topic `T` is the
FNV-1a hash of its bytes modulo `N`, a function of `T` and `N` alone, and `Subscribe(T, _)`,
`UnSubscribe(T, _)`, `Publish(T, _)` and `Get(T, _)` each append their request to the queue at
that index and leave the other queues alone, whatever the subscriber name or message. A call
on any topic leaves `maxWorkers` as it is, so later calls on `T` select the same index. -/
theorem routing_by_topic (pb : PubSub) (T : String)
    (hN : 1 ≤ pb.maxWorkers)
    (hlen : pb.topicHandlerChannelLst.length = pb.maxWorkers)
    (hopen : ∀ q ∈ pb.topicHandlerChannelLst, q.closed = false) :
    ∃ idx q, idx = sum32aWrite New32a (bytesOf T) % pb.maxWorkers ∧
      getHashIdx pb.maxWorkers T = some idx ∧
      pb.topicHandlerChannelLst[idx]? = some q ∧
      (∀ S, pb.Subscribe T S = some { pb with topicHandlerChannelLst :=
        (pb.topicHandlerChannelLst.set idx { q with buf := q.buf ++ [.ADD_SUB T S] }) }) ∧
      (∀ S, pb.UnSubscribe T S = some { pb with topicHandlerChannelLst :=
        (pb.topicHandlerChannelLst.set idx { q with buf := q.buf ++ [.DEL_SUB T S] }) }) ∧
      (∀ msg, pb.Publish T msg = some { pb with topicHandlerChannelLst :=
        (pb.topicHandlerChannelLst.set idx { q with buf := q.buf ++ [.POST_MSG T msg] }) }) ∧
      (∀ S, pb.Get T S = some { pb with topicHandlerChannelLst :=
        (pb.topicHandlerChannelLst.set idx { q with buf := q.buf ++ [.GET_MSG T S] }) }) ∧
      (∀ (T' : String) (r : request) (pb' : PubSub), pb.sendTo T' r = some pb' →
        getHashIdx pb'.maxWorkers T = some idx) := by
  have hidx : getHashIdx pb.maxWorkers T
      = some (sum32aWrite New32a (bytesOf T) % pb.maxWorkers) := by
    simp only [getHashIdx]
    rw [if_neg (by omega)]
  have hlt : sum32aWrite New32a (bytesOf T) % pb.maxWorkers < pb.topicHandlerChannelLst.length := by
    rw [hlen]
    exact Nat.mod_lt _ hN
  have hq : pb.topicHandlerChannelLst[sum32aWrite New32a (bytesOf T) % pb.maxWorkers]?
      = some (pb.topicHandlerChannelLst.get ⟨_, hlt⟩) := by
    rw [List.getElem?_eq_getElem hlt]
    rfl
  have hcl : (pb.topicHandlerChannelLst.get ⟨_, hlt⟩).closed = false :=
    hopen _ (List.get_mem _ _ _)
  refine ⟨_, _, rfl, hidx, hq, ?_, ?_, ?_, ?_, ?_⟩
  · intro S
    exact sendTo_eq pb T _ _ _ hidx hq hcl
  · intro S
    exact sendTo_eq pb T _ _ _ hidx hq hcl
  · intro msg
    exact sendTo_eq pb T _ _ _ hidx hq hcl
  · intro S
    exact sendTo_eq pb T _ _ _ hidx hq hcl
  · intro T' r pb' h
    rw [(sendTo_maxWorkers pb pb' T' r h).1]
    exact hidx

/-- C15 on the broker made with 3 CPUs (2 workers): topic `foobar` has index 0, and a
`Subscribe` and a `Get` on it both land on queue 0. -/
theorem routing_by_topic_witness :
    (NewPubSub 3 1).1.Subscribe "foobar" "s"
      = some ⟨[⟨[.ADD_SUB "foobar" "s"], false⟩, ⟨[], false⟩], 2⟩ ∧
    (NewPubSub 3 1).1.Get "foobar" "other"
      = some ⟨[⟨[.GET_MSG "foobar" "other"], false⟩, ⟨[], false⟩], 2⟩ := by
  obtain ⟨idx, q, hidx, _, hq, hs, _, _, hg, _⟩ :=
    routing_by_topic (NewPubSub 3 1).1 "foobar" (by decide) (by decide) (by decide)
  have h0 : idx = 0 := hidx.trans (by decide)
  subst h0
  have hq₀ : (NewPubSub 3 1).1.topicHandlerChannelLst[0]? = some ⟨[], false⟩ := by decide
  have hq' : q = ⟨[], false⟩ := Option.some.inj (hq.symm.trans hq₀)
  subst hq'
  exact ⟨(hs "s").trans (by decide), (hg "other").trans (by decide)⟩

/-! ## C20: the shard index is FNV-1a modulo the shard count -/

theorem sum32aWrite_eq_foldl (data : List Nat) :
    ∀ hash : Nat, sum32aWrite hash data
      = data.foldl (fun h b => ((h ^^^ b) * 16777619) % 4294967296) hash := by
  induction data with
  | nil => intro hash; rfl
  | cons c data ih =>
    intro hash
    rw [sum32aWrite, ih, List.foldl_cons]
    rfl

/-- C20: for every topic `t` and shard count `N ≥ 1`, `getHashIdx(t)` is `FNV1a32` of the bytes
of `t` modulo `N`, where `FNV1a32` starts from 2166136261 and for each byte `b` in order
computes `h := ((h xor b) * 16777619) mod 2^32`; for the empty topic it is
`2166136261 mod N`. -/
theorem getHashIdx_eq_FNV1a32 (N : Nat) (t : String) (hN : 1 ≤ N) :
    getHashIdx N t = some (FNV1a32 (bytesOf t) % N) ∧
    getHashIdx N "" = some (2166136261 % N) := by
  have h : ∀ s : String, getHashIdx N s = some (FNV1a32 (bytesOf s) % N) := by
    intro s
    simp only [getHashIdx, FNV1a32, New32a, offset32, sum32aWrite_eq_foldl]
    rw [if_neg (by omega)]
  exact ⟨h t, h ""⟩

/-- C20 on the topic `foobar` with 3 shards: its FNV-1a hash is 3214735720, the index is 1. -/
theorem getHashIdx_eq_FNV1a32_witness :
    FNV1a32 (bytesOf "foobar") = 3214735720 ∧ getHashIdx 3 "foobar" = some 1 ∧
    getHashIdx 3 "" = some 1 :=
  ⟨by decide, (getHashIdx_eq_FNV1a32 3 "foobar" (by decide)).1.trans (by decide),
    (getHashIdx_eq_FNV1a32 3 "foobar" (by decide)).2.trans (by decide)⟩

/-! ## C16: shutdown -/

theorem closeAll_open (chs : List EventQueue) (h : ∀ q ∈ chs, q.closed = false) :
    closeAll chs
      = some (chs.map (fun q => { q with buf := q.buf ++ [request.CLOSE_QUEUE] })) := by
  induction chs with
  | nil => rfl
  | cons ch rest ih =>
    have hch : ch.closed = false := h ch (List.mem_cons_self ch rest)
    have hrest := ih (fun q hq => h q (List.mem_cons_of_mem ch hq))
    simp only [closeAll, EventQueue.send, hch, hrest, List.map_cons]
    rfl

/-- On requests without `CLOSE_QUEUE` the loop is the iteration of `handle`. -/
theorem eventLoop_eq (pending : List request) (h : request.CLOSE_QUEUE ∉ pending) :
    ∀ (th : topicHandler) (closed : Bool),
      eventLoop th closed pending
        = { worker := stepAll th pending, received := pending, sent := responses th pending,
            ending := if closed then LoopEnd.exited else LoopEnd.blocked } := by
  induction pending with
  | nil => intro th closed; rfl
  | cons r rs ih =>
    intro th closed
    have hr : r ≠ request.CLOSE_QUEUE := fun e => h (e ▸ List.mem_cons_self r rs)
    have hrs : request.CLOSE_QUEUE ∉ rs := fun c => h (List.mem_cons_of_mem r c)
    have hsent : (handle th r).2.toList ++ responses (handle th r).1 rs
        = responses th (r :: rs) := by
      simp only [responses]
      cases (handle th r).2 <;> rfl
    cases r with
    | CLOSE_QUEUE => exact absurd rfl hr
    | ADD_SUB T S => simp only [eventLoop, ih hrs, stepAll_cons, step, ← hsent]
    | DEL_SUB T S => simp only [eventLoop, ih hrs, stepAll_cons, step, ← hsent]
    | POST_MSG T v => simp only [eventLoop, ih hrs, stepAll_cons, step, ← hsent]
    | GET_MSG T S => simp only [eventLoop, ih hrs, stepAll_cons, step, ← hsent]

theorem mapDelete_mapModify_self {V : Type} (m : List (String × V)) (k : String) (f : V → V) :
    mapDelete (mapModify m k f) k = mapDelete m k := by
  induction m with
  | nil => rfl
  | cons e m ih =>
    obtain ⟨k₀, v₀⟩ := e
    by_cases h₀ : k₀ = k
    · rw [mapModify_cons, if_pos h₀, mapDelete_cons, if_pos h₀, mapDelete_cons, if_pos h₀, ih]
    · rw [mapModify_cons, if_neg h₀, mapDelete_cons, if_neg h₀, mapDelete_cons, if_neg h₀, ih]

theorem mem_mapDelete {V : Type} (m : List (String × V)) (k : String) (x : String × V)
    (h : x ∈ mapDelete m k) : x ∈ m ∧ x.1 ≠ k := by
  simpa [mapDelete] using h

/-- Deleting every key of a list of entries that covers the keys of `m` empties `m`. -/
theorem foldl_mapDelete_covering {V W : Type} (es : List (String × W)) :
    ∀ m : List (String × V), (∀ x ∈ m, x.1 ∈ es.map Prod.fst) →
      es.foldl (fun tm e => mapDelete tm e.1) m = [] := by
  induction es with
  | nil =>
    intro m h
    cases m with
    | nil => rfl
    | cons x m => exact absurd (h x (List.mem_cons_self x m)) (by simp)
  | cons e es ih =>
    intro m h
    rw [List.foldl_cons]
    apply ih
    intro x hx
    obtain ⟨hxm, hne⟩ := mem_mapDelete m e.1 x hx
    have := h x hxm
    simp only [List.map_cons, List.mem_cons] at this
    exact this.resolve_left hne

/-- The deferred cleanup leaves the topic map empty. -/
theorem cleanup_topicMap (th : topicHandler) : (cleanup th).topicMap = [] := by
  simp only [cleanup, mapDelete_mapModify_self]
  exact foldl_mapDelete_covering th.topicMap th.topicMap
    (fun x hx => List.mem_map_of_mem Prod.fst hx)

/-- C16, as stated, fails: with three requests buffered behind `CLOSE_QUEUE`, the worker
receives all four, registers the subscriber, delivers the publication and answers the Get after
it has processed the shutdown request; only then does its loop exit. -/
theorem shutdown_counterexample :
    (runFrom (newTopicHandler 1) false
      [.CLOSE_QUEUE, .ADD_SUB "t" "s", .POST_MSG "t" ⟨"m", 1⟩, .GET_MSG "t" "s"]).received
      = [.CLOSE_QUEUE, .ADD_SUB "t" "s", .POST_MSG "t" ⟨"m", 1⟩, .GET_MSG "t" "s"] ∧
    (runFrom (newTopicHandler 1) false
      [.CLOSE_QUEUE, .ADD_SUB "t" "s", .POST_MSG "t" ⟨"m", 1⟩, .GET_MSG "t" "s"]).sent
      = [response.ok ⟨"m", 1⟩] ∧
    (runFrom (newTopicHandler 1) false
      [.CLOSE_QUEUE, .ADD_SUB "t" "s", .POST_MSG "t" ⟨"m", 1⟩, .GET_MSG "t" "s"]).ending
      = LoopEnd.exited := by
  decide

/-- C16, amended: `Close` appends exactly one `CLOSE_QUEUE` to every shard queue; and from every
worker state, a worker that receives `CLOSE_QUEUE` still processes, in order, the requests
`pending` buffered behind it (none of them a `CLOSE_QUEUE`), sending their responses, and then
its loop exits with an empty topic map. -/
theorem shutdown_drains_then_exits (pb : PubSub) (th : topicHandler) (pending : List request)
    (hopen : ∀ q ∈ pb.topicHandlerChannelLst, q.closed = false)
    (hp : request.CLOSE_QUEUE ∉ pending) :
    pb.Close = some { pb with topicHandlerChannelLst :=
      (pb.topicHandlerChannelLst.map
        (fun q => { q with buf := q.buf ++ [request.CLOSE_QUEUE] })) } ∧
    (runFrom th false (.CLOSE_QUEUE :: pending)).ending = LoopEnd.exited ∧
    (runFrom th false (.CLOSE_QUEUE :: pending)).received = .CLOSE_QUEUE :: pending ∧
    (runFrom th false (.CLOSE_QUEUE :: pending)).sent = responses th pending ∧
    (runFrom th false (.CLOSE_QUEUE :: pending)).worker.topicMap = [] := by
  have hloop : eventLoop th false (.CLOSE_QUEUE :: pending)
      = { worker := stepAll th pending, received := .CLOSE_QUEUE :: pending,
          sent := responses th pending, ending := LoopEnd.exited } := by
    simp only [eventLoop, eventLoop_eq pending hp th true, if_true]
    rfl
  refine ⟨?_, ?_, ?_, ?_, ?_⟩
  · simp only [PubSub.Close, closeAll_open _ hopen]
  · simp only [runFrom, hloop]
  · simp only [runFrom, hloop]
  · simp only [runFrom, hloop]
  · simp only [runFrom, hloop, cleanup_topicMap]

/-- C16 amended, on a broker with two open queues and a worker holding one mailbox. -/
theorem shutdown_drains_then_exits_witness :
    PubSub.Close ⟨[⟨[.ADD_SUB "t" "s"], false⟩, ⟨[], false⟩], 2⟩
      = some ⟨[⟨[.ADD_SUB "t" "s", .CLOSE_QUEUE], false⟩, ⟨[.CLOSE_QUEUE], false⟩], 2⟩ ∧
    (runFrom ⟨[("t", [("s", ⟨1, [⟨"m", 1⟩]⟩)])], 1⟩ false
      [.CLOSE_QUEUE, .GET_MSG "t" "s"]).worker.topicMap = [] :=
  ⟨(shutdown_drains_then_exits ⟨[⟨[.ADD_SUB "t" "s"], false⟩, ⟨[], false⟩], 2⟩
      ⟨[("t", [("s", ⟨1, [⟨"m", 1⟩]⟩)])], 1⟩ [.GET_MSG "t" "s"] (by decide) (by decide)).1,
   (shutdown_drains_then_exits ⟨[⟨[.ADD_SUB "t" "s"], false⟩, ⟨[], false⟩], 2⟩
      ⟨[("t", [("s", ⟨1, [⟨"m", 1⟩]⟩)])], 1⟩ [.GET_MSG "t" "s"] (by decide)
      (by decide)).2.2.2.2⟩

/-! ## C18: status codes of the `getMsg` handler -/

/-- C18: on a fresh response writer the handler `getMsg` answers a message with a nil error by
status 200 and the JSON encoding of the message as body, `ErrSubNotFound` and
`ErrTopicNotFound` by status 404, and `ErrNoNewMessages` by status 204, in each error case
with an empty body. -/
theorem getMsg_status_codes (marshal : PubMessage → Option String) (w : Main.ResponseWriter)
    (hw : w.wroteHeader = false) (hb : w.Body = "") :
    (∀ m body, marshal m = some body →
      (Main.getMsg marshal w (some m) none).map (fun w' => (w'.Code, w'.Body))
        = some (200, body ++ "\n")) ∧
    (∀ msg, (Main.getMsg marshal w msg (some Error.ErrSubNotFound)).map
        (fun w' => (w'.Code, w'.Body)) = some (404, "")) ∧
    (∀ msg, (Main.getMsg marshal w msg (some Error.ErrTopicNotFound)).map
        (fun w' => (w'.Code, w'.Body)) = some (404, "")) ∧
    (∀ msg, (Main.getMsg marshal w msg (some Error.ErrNoNewMessages)).map
        (fun w' => (w'.Code, w'.Body)) = some (204, "")) := by
  refine ⟨?_, ?_, ?_, ?_⟩
  · intro m body hm
    simp [Main.getMsg, hm, Main.ResponseWriter.Write, Main.ResponseWriter.WriteHeader, hw, hb]
  · intro msg
    simp [Main.getMsg, Main.ResponseWriter.WriteHeader, hw, hb, Main.StatusNotFound]
  · intro msg
    simp [Main.getMsg, Main.ResponseWriter.WriteHeader, hw, hb, Main.StatusNotFound]
  · intro msg
    simp [Main.getMsg, Main.ResponseWriter.WriteHeader, hw, hb, Main.StatusNoContent]

/-- C18 on a recorder, with an encoder that renders the payload between quotes. -/
theorem getMsg_status_codes_witness :
    (Main.getMsg (fun m => some ("\"" ++ m.Message ++ "\"")) Main.NewRecorder
        (some ⟨"hi", 1⟩) none).map (fun w' => (w'.Code, w'.Body))
      = some (200, "\"hi\"" ++ "\n") ∧
    (Main.getMsg (fun m => some ("\"" ++ m.Message ++ "\"")) Main.NewRecorder
        none (some Error.ErrNoNewMessages)).map (fun w' => (w'.Code, w'.Body))
      = some (204, "") :=
  ⟨(getMsg_status_codes (fun m => some ("\"" ++ m.Message ++ "\"")) Main.NewRecorder
      rfl rfl).1 ⟨"hi", 1⟩ "\"hi\"" rfl,
   (getMsg_status_codes (fun m => some ("\"" ++ m.Message ++ "\"")) Main.NewRecorder
      rfl rfl).2.2.2 none⟩

/-! ## C19: content type check of the `publish` handler -/

/-- With a `Content-Type` header, `publish` answers 400 without a call of `Publish` unless the
first value is `application/json` and the body decodes, and then it answers 204 after one call
of `Publish` with the decoded message stamped with the current time. -/
theorem publish_content_type_checked (decode : String → Option PubMessage) (now : Nat)
    (w : Main.ResponseWriter) (r : Main.Request) (topic : String)
    (contentType : String) (more : List String)
    (hct : mapGet r.Header "Content-Type" = some (contentType :: more)) :
    (contentType ≠ "application/json" →
      Main.publish decode now w r topic = some (w.WriteHeader 400, none)) ∧
    (contentType = "application/json" → decode r.Body = none →
      Main.publish decode now w r topic = some (w.WriteHeader 400, none)) ∧
    (∀ req, contentType = "application/json" → decode r.Body = some req →
      Main.publish decode now w r topic
        = some (w.WriteHeader 204, some (topic, { req with Published := now }))) := by
  refine ⟨?_, ?_, ?_⟩
  · intro hne
    simp [Main.publish, hct, hne, Main.StatusBadRequest]
  · intro he hd
    simp [Main.publish, hct, he, hd, Main.StatusBadRequest]
  · intro req he hd
    simp [Main.publish, hct, he, hd, Main.StatusNoContent]

/-- C19, the code at the failing input: on a request without a `Content-Type` header the
handler `publish` indexes the empty header value list and panics; it writes no status 400. -/
theorem publish_without_content_type (decode : String → Option PubMessage) (now : Nat)
    (w : Main.ResponseWriter) (body topic : String) :
    Main.publish decode now w { Header := [], Body := body } topic = none := rfl

/-! ## C21: sharding is invisible to sequential callers -/

/-- The loop body of package `pubsub` is the loop body of package `pubsubScalable` on the same
topic map and capacity. -/
theorem pubsub_handle_eq (pb : Pubsub.PubSub) (r : request) :
    (Pubsub.handle pb r).2 = (handle ⟨pb.topicMap, pb.maxOutStandingMessages⟩ r).2 ∧
    (Pubsub.handle pb r).1.topicMap
      = (handle ⟨pb.topicMap, pb.maxOutStandingMessages⟩ r).1.topicMap ∧
    (Pubsub.handle pb r).1.maxOutStandingMessages = pb.maxOutStandingMessages := by
  cases r with
  | ADD_SUB key value => exact ⟨rfl, rfl, rfl⟩
  | DEL_SUB key value =>
    cases h : mapGet pb.topicMap key <;> simp [Pubsub.handle, handle, h]
  | POST_MSG key value => exact ⟨rfl, rfl, rfl⟩
  | GET_MSG key value =>
    cases h : mapGet pb.topicMap key with
    | none => simp [Pubsub.handle, handle, h]
    | some subMap =>
      cases h₁ : mapGet subMap value with
      | none => simp [Pubsub.handle, handle, h, h₁]
      | some subCh =>
        cases h₂ : subCh.tryRecv with
        | none => simp [Pubsub.handle, handle, h, h₁, h₂]
        | some p => simp [Pubsub.handle, handle, h, h₁, h₂]
  | CLOSE_QUEUE => exact ⟨rfl, rfl, rfl⟩

theorem handle_DEL_SUB_snd (th : topicHandler) (T S : String) :
    (handle th (.DEL_SUB T S)).2 = none := by
  simp only [handle]
  cases mapGet th.topicMap T <;> rfl

/-- The response to a call on topic `T` and the subscriber map of `T` after it depend only on
the subscriber map of `T` before it and on the capacity. -/
theorem handle_local (th₁ th₂ : topicHandler) (c : Call)
    (hm : mapGet th₁.topicMap c.topicName = mapGet th₂.topicMap c.topicName)
    (hc : th₁.maxOutStandingMessages = th₂.maxOutStandingMessages) :
    (handle th₁ c.toRequest).2 = (handle th₂ c.toRequest).2 ∧
    mapGet (handle th₁ c.toRequest).1.topicMap c.topicName
      = mapGet (handle th₂ c.toRequest).1.topicMap c.topicName := by
  cases c with
  | Subscribe T S =>
    simp only [Call.topicName, Call.toRequest] at hm ⊢
    refine ⟨rfl, ?_⟩
    have h₁ := topicMap_ADD_SUB_self th₁ T S
    have h₂ := topicMap_ADD_SUB_self th₂ T S
    simp only [step] at h₁ h₂
    rw [h₁, h₂, hm, hc]
  | UnSubscribe T S =>
    simp only [Call.topicName, Call.toRequest] at hm ⊢
    refine ⟨by rw [handle_DEL_SUB_snd, handle_DEL_SUB_snd], ?_⟩
    have h₁ := topicMap_DEL_SUB_self th₁ T S
    have h₂ := topicMap_DEL_SUB_self th₂ T S
    simp only [step] at h₁ h₂
    rw [h₁, h₂, hm]
  | Publish T msg =>
    simp only [Call.topicName, Call.toRequest] at hm ⊢
    refine ⟨rfl, ?_⟩
    have h₁ := topicMap_POST_MSG_self th₁ T msg
    have h₂ := topicMap_POST_MSG_self th₂ T msg
    simp only [step] at h₁ h₂
    rw [h₁, h₂, hm]
  | Get T S =>
    simp only [Call.topicName, Call.toRequest] at hm ⊢
    rcases handle_GET_MSG_cases th₁ T S with ⟨hT, e⟩ | ⟨sm, hT, hS, e⟩ |
      ⟨sm, ch, hT, hS, hb, e⟩ | ⟨sm, ch, v, rest, hT, hS, hb, e⟩
    · rw [e, handle_GET_MSG_topic_absent th₂ T S (hm ▸ hT)]
      exact ⟨rfl, hm⟩
    · rw [e, handle_GET_MSG_sub_absent th₂ T S sm (hm ▸ hT) hS]
      exact ⟨rfl, hm⟩
    · rw [e, handle_GET_MSG_empty th₂ T S sm ch (hm ▸ hT) hS hb]
      exact ⟨rfl, hm⟩
    · rw [e, handle_GET_MSG_recv th₂ T S sm ch v rest (hm ▸ hT) hS hb]
      refine ⟨rfl, ?_⟩
      simp only [mapGet_mapModify_self, hm]

/-- A call on topic `T` leaves the subscriber map of every other topic as it is. -/
theorem handle_other (th : topicHandler) (c : Call) (T' : String) (h : c.topicName ≠ T') :
    mapGet (handle th c.toRequest).1.topicMap T' = mapGet th.topicMap T' := by
  cases c with
  | Subscribe T S => exact topicMap_ADD_SUB_ne th S h
  | UnSubscribe T S => exact topicMap_DEL_SUB_ne th S h
  | Publish T msg => exact topicMap_POST_MSG_ne th msg h
  | Get T S => exact topicMap_GET_MSG_ne th S h

/-- Simulation: when every worker has the capacity of the single broker and, for every topic,
the worker the topic is routed to holds the subscriber map the single broker holds for it, a
sequence of calls returns the same results on both. -/
theorem shardedCalls_eq (N : Nat) (hN : 1 ≤ N) (cs : List Call) :
    ∀ (workers : List topicHandler) (pb : Pubsub.PubSub),
      workers.length = N →
      (∀ (idx : Nat) (th : topicHandler), workers[idx]? = some th →
        th.maxOutStandingMessages = pb.maxOutStandingMessages) →
      (∀ (T : String) (idx : Nat) (th : topicHandler), getHashIdx N T = some idx →
        workers[idx]? = some th → mapGet th.topicMap T = mapGet pb.topicMap T) →
      shardedCalls N workers cs = some (Pubsub.calls pb cs) := by
  induction cs with
  | nil => intro workers pb _ _ _; rfl
  | cons c cs ih =>
    intro workers pb hlen hcap hsim
    obtain ⟨idx₀, hidx, hlt⟩ := getHashIdx_lt N c.topicName hN
    have hlt' : idx₀ < workers.length := hlen ▸ hlt
    have hth : workers[idx₀]? = some (workers.get ⟨idx₀, hlt'⟩) := by
      rw [List.getElem?_eq_getElem hlt']
      rfl
    generalize workers.get ⟨idx₀, hlt'⟩ = th₀ at hth
    obtain ⟨hp₂, hp₁, hpc⟩ := pubsub_handle_eq pb c.toRequest
    obtain ⟨hl₂, hl₁⟩ := handle_local th₀ ⟨pb.topicMap, pb.maxOutStandingMessages⟩ c
      (hsim c.topicName idx₀ th₀ hidx hth) (hcap idx₀ th₀ hth)
    have hcall : shardedCall N workers c
        = some (workers.set idx₀ (handle th₀ c.toRequest).1,
            (handle th₀ c.toRequest).2.map getReturn) := by
      simp only [shardedCall, hidx, hth]
    have hnext := ih (workers.set idx₀ (handle th₀ c.toRequest).1) (Pubsub.call pb c).1
      (by rw [List.length_set, hlen])
      (by
        intro idx th h
        show th.maxOutStandingMessages = (Pubsub.handle pb c.toRequest).1.maxOutStandingMessages
        rw [hpc]
        by_cases hi : idx₀ = idx
        · subst hi
          rw [List.getElem?_set_self hlt'] at h
          cases h
          exact (step_maxOutStandingMessages th₀ c.toRequest).trans (hcap idx₀ th₀ hth)
        · rw [List.getElem?_set_ne hi] at h
          exact hcap idx th h)
      (by
        intro T' idx th hT' h
        show mapGet th.topicMap T' = mapGet (Pubsub.handle pb c.toRequest).1.topicMap T'
        rw [hp₁]
        by_cases hi : idx₀ = idx
        · subst hi
          rw [List.getElem?_set_self hlt'] at h
          cases h
          by_cases hT : c.topicName = T'
          · subst hT
            exact hl₁
          · rw [handle_other th₀ c T' hT, handle_other _ c T' hT]
            exact hsim T' idx₀ th₀ hT' hth
        · rw [List.getElem?_set_ne hi] at h
          have hT : c.topicName ≠ T' := by
            intro e
            rw [e, hT'] at hidx
            exact hi (Option.some.inj hidx).symm
          rw [handle_other _ c T' hT]
          exact hsim T' idx th hT' h)
    simp only [shardedCalls, hcall, hnext, Pubsub.calls]
    simp only [Pubsub.call, hp₂, hl₂]

/-- C21: for every shard count `N ≥ 1`, every capacity `C` and every finite sequence of
`Subscribe`, `UnSubscribe`, `Publish` and `Get` calls, each processed before the next is
issued, the sharded broker of package `pubsubScalable` with `N` workers does not panic and
returns for every call, in particular for every `Get`, the message or error that the
single-worker broker of package `pubsub` returns on the same sequence. The second part says it
for the broker `NewPubSub` makes with `n` CPUs, `2 ≤ n ≤ 2^32`. -/
theorem sharding_invisible (N C : Nat) (hN : 1 ≤ N) (cs : List Call) :
    shardedCalls N (List.replicate N (newTopicHandler C)) cs
      = some (Pubsub.calls (Pubsub.NewPubSub C) cs) ∧
    ∀ n : Nat, 2 ≤ n → n ≤ 2 ^ 32 →
      shardedCalls (NewPubSub (n : Int) C).1.maxWorkers (NewPubSub (n : Int) C).2 cs
        = some (Pubsub.calls (Pubsub.NewPubSub C) cs) := by
  have key : ∀ M : Nat, 1 ≤ M →
      shardedCalls M (List.replicate M (newTopicHandler C)) cs
        = some (Pubsub.calls (Pubsub.NewPubSub C) cs) := by
    intro M hM
    apply shardedCalls_eq M hM cs
    · exact List.length_replicate _ _
    · intro idx th h
      rw [List.getElem?_replicate] at h
      split at h
      · cases h
        rfl
      · cases h
    · intro T idx th _ h
      rw [List.getElem?_replicate] at h
      split at h
      · cases h
        rfl
      · cases h
  refine ⟨key N hN, ?_⟩
  intro n h₂ h₃
  have e : (NewPubSub (n : Int) C).1.maxWorkers = n - 1 :=
    (NewPubSub_maxWorkers n C (by omega) h₃).1
  have e' : (NewPubSub (n : Int) C).2
      = List.replicate (NewPubSub (n : Int) C).1.maxWorkers (newTopicHandler C) := rfl
  rw [e', e]
  exact key (n - 1) (by omega)

/-- C21 on 2 shards of capacity 1 and on the broker made with 3 CPUs: the results of a
sequence with two topics, an overflow and Gets of all four kinds are those of the single
broker. -/
theorem sharding_invisible_witness :
    shardedCalls 2 (List.replicate 2 (newTopicHandler 1))
        [.Subscribe "foobar" "s", .Publish "foobar" ⟨"m1", 1⟩, .Publish "foobar" ⟨"m2", 2⟩,
          .Subscribe "a" "s", .Get "foobar" "s", .Get "foobar" "s", .Get "a" "x", .Get "b" "s"]
      = some (Pubsub.calls (Pubsub.NewPubSub 1)
        [.Subscribe "foobar" "s", .Publish "foobar" ⟨"m1", 1⟩, .Publish "foobar" ⟨"m2", 2⟩,
          .Subscribe "a" "s", .Get "foobar" "s", .Get "foobar" "s", .Get "a" "x",
          .Get "b" "s"]) ∧
    shardedCalls (NewPubSub 3 1).1.maxWorkers (NewPubSub 3 1).2 [.Get "b" "s"]
      = some (Pubsub.calls (Pubsub.NewPubSub 1) [.Get "b" "s"]) :=
  ⟨(sharding_invisible 2 1 (by decide) _).1,
   (sharding_invisible 2 1 (by decide) _).2 3 (by decide) (by decide)⟩

/-! ## C22: isolation of topics and subscribers -/

/-- C22: a `Subscribe`, `UnSubscribe`, `Publish` or `Get` on topic `T` leaves the subscriber map
of every other topic, with all its mailboxes, as it is. Moreover `Get(T, S)` changes neither the
set of topics nor the set of subscribers of any topic, changes no mailbox other than that of
`(T, S)`, removes exactly the head of that mailbox when it returns a message, and leaves the
whole state as it is when it returns an error. -/
theorem topic_and_subscriber_isolation (th : topicHandler) (T S : String) :
    (∀ c : Call, c.topicName = T → ∀ T', T' ≠ T →
      mapGet (step th c.toRequest).topicMap T' = mapGet th.topicMap T') ∧
    (∀ T', hasTopic (step th (.GET_MSG T S)) T' = hasTopic th T') ∧
    (∀ T' S', (mailbox (step th (.GET_MSG T S)) T' S').isSome = (mailbox th T' S').isSome) ∧
    (∀ T' S', T' ≠ T ∨ S' ≠ S →
      mailbox (step th (.GET_MSG T S)) T' S' = mailbox th T' S') ∧
    (∀ v, getMsg th T S = some (response.ok v) →
      ∃ ch rest, mailbox th T S = some ch ∧ ch.buf = v :: rest ∧
        mailbox (step th (.GET_MSG T S)) T S = some { ch with buf := rest }) ∧
    (∀ e, getMsg th T S = some (response.fail e) → step th (.GET_MSG T S) = th) := by
  have hother : ∀ T' S', T' ≠ T ∨ S' ≠ S →
      mailbox (step th (.GET_MSG T S)) T' S' = mailbox th T' S' := by
    intro T' S' h
    exact mailbox_GET_MSG_other th (h.imp Ne.symm Ne.symm)
  refine ⟨?_, ?_, ?_, hother, ?_, ?_⟩
  · intro c hc T' hT'
    exact handle_other th c T' (by rw [hc]; exact Ne.symm hT')
  · intro T'
    exact hasTopic_GET_MSG th T S T'
  · intro T' S'
    by_cases hk : T' = T ∧ S' = S
    · obtain ⟨rfl, rfl⟩ := hk
      rw [mailbox_GET_MSG_self]
      cases mailbox th T' S' <;> rfl
    · rw [hother T' S' (not_and_or.mp hk)]
  · intro v hv
    obtain ⟨ch, rest, hm, hb⟩ := getMsg_ok_mailbox th T S v hv
    refine ⟨ch, rest, hm, hb, ?_⟩
    rw [mailbox_GET_MSG_self, hm, Option.map_some']
    simp only [Chan.afterRecv, hb, List.tail_cons]
  · intro e he
    rcases handle_GET_MSG_cases th T S with ⟨_, h⟩ | ⟨_, _, _, h⟩ | ⟨_, _, _, _, _, h⟩ |
      ⟨_, _, _, _, _, _, _, h⟩
    · simp only [step, h]
    · simp only [step, h]
    · simp only [step, h]
    · simp [getMsg, h, response.fail] at he

/-- C22 on a worker with two topics: a publication to `t` leaves the subscriber map of `u` as
it is, a successful `Get(t, a)` removes the head of the mailbox of `a`, and a `Get(t, b)` on an
empty mailbox leaves the state as it is. -/
theorem topic_and_subscriber_isolation_witness :
    mapGet (step ⟨[("t", [("a", ⟨2, [⟨"m1", 1⟩, ⟨"m2", 2⟩]⟩), ("b", ⟨2, []⟩)]),
        ("u", [("a", ⟨2, [⟨"n", 3⟩]⟩)])], 2⟩ (Call.Publish "t" ⟨"m3", 4⟩).toRequest).topicMap "u"
      = some [("a", ⟨2, [⟨"n", 3⟩]⟩)] ∧
    (∃ ch rest, mailbox ⟨[("t", [("a", ⟨2, [⟨"m1", 1⟩, ⟨"m2", 2⟩]⟩), ("b", ⟨2, []⟩)]),
        ("u", [("a", ⟨2, [⟨"n", 3⟩]⟩)])], 2⟩ "t" "a" = some ch ∧ ch.buf = ⟨"m1", 1⟩ :: rest ∧
      mailbox (step ⟨[("t", [("a", ⟨2, [⟨"m1", 1⟩, ⟨"m2", 2⟩]⟩), ("b", ⟨2, []⟩)]),
        ("u", [("a", ⟨2, [⟨"n", 3⟩]⟩)])], 2⟩ (.GET_MSG "t" "a")) "t" "a"
        = some { ch with buf := rest }) ∧
    step ⟨[("t", [("a", ⟨2, [⟨"m1", 1⟩, ⟨"m2", 2⟩]⟩), ("b", ⟨2, []⟩)]),
        ("u", [("a", ⟨2, [⟨"n", 3⟩]⟩)])], 2⟩ (.GET_MSG "t" "b")
      = ⟨[("t", [("a", ⟨2, [⟨"m1", 1⟩, ⟨"m2", 2⟩]⟩), ("b", ⟨2, []⟩)]),
        ("u", [("a", ⟨2, [⟨"n", 3⟩]⟩)])], 2⟩ :=
  ⟨((topic_and_subscriber_isolation _ "t" "a").1 (Call.Publish "t" ⟨"m3", 4⟩) rfl "u"
      (by decide)).trans (by decide),
   (topic_and_subscriber_isolation _ "t" "a").2.2.2.2.1 ⟨"m1", 1⟩ (by decide),
   (topic_and_subscriber_isolation _ "t" "b").2.2.2.2.2 Error.ErrNoNewMessages (by decide)⟩

/-! ## C23: capacity 0 -/

/-- With capacity 0, a mailbox that has the worker's capacity and is within it is the empty
channel of capacity 0. -/
theorem chan_eq_of_bound_zero (th : topicHandler) (h₀ : th.maxOutStandingMessages = 0)
    (ch : Chan) (h : ch.cap = th.maxOutStandingMessages ∧ ch.buf.length ≤ ch.cap) :
    ch = { cap := 0, buf := [] } := by
  obtain ⟨c, b⟩ := ch
  simp only at h
  obtain ⟨h₁, h₂⟩ := h
  rw [h₀] at h₁
  subst h₁
  have : b = [] := List.length_eq_zero.mp (Nat.le_zero.mp h₂)
  rw [this]

/-- With capacity 0 no response of a worker whose mailboxes are within capacity carries a
message. -/
theorem responses_value_none (rs : List request) :
    ∀ th : topicHandler, th.maxOutStandingMessages = 0 →
      (∀ T S ch, mailbox th T S = some ch →
        ch.cap = th.maxOutStandingMessages ∧ ch.buf.length ≤ ch.cap) →
      ∀ resp ∈ responses th rs, resp.value = none := by
  induction rs with
  | nil =>
    intro th _ _ resp h
    cases h
  | cons r rs ih =>
    intro th h₀ hinv resp hresp
    have hnext := ih (step th r) (by rw [step_maxOutStandingMessages, h₀])
      (step_preserves_bound th r hinv)
    cases r with
    | ADD_SUB T S =>
      rw [responses_ADD_SUB] at hresp
      exact hnext resp hresp
    | DEL_SUB T S =>
      rw [responses_DEL_SUB] at hresp
      exact hnext resp hresp
    | POST_MSG T v =>
      rw [responses_POST_MSG] at hresp
      exact hnext resp hresp
    | CLOSE_QUEUE =>
      rw [responses_CLOSE_QUEUE] at hresp
      exact hnext resp hresp
    | GET_MSG T S =>
      obtain ⟨r₀, hr₀⟩ := Option.isSome_iff_exists.mp (getMsg_isSome th T S)
      rw [responses_GET_MSG th T S rs r₀ hr₀] at hresp
      rcases List.mem_cons.mp hresp with rfl | h
      · rcases handle_GET_MSG_cases th T S with ⟨_, e⟩ | ⟨_, _, _, e⟩ | ⟨_, _, _, _, _, e⟩ |
          ⟨sm, ch, v, rest, hT, hS, hb, e⟩
        · simp only [getMsg, e, Option.some.injEq] at hr₀
          rw [← hr₀]
        · simp only [getMsg, e, Option.some.injEq] at hr₀
          rw [← hr₀]
        · simp only [getMsg, e, Option.some.injEq] at hr₀
          rw [← hr₀]
        · have hm : mailbox th T S = some ch := by simp [mailbox, hT, hS]
          have := chan_eq_of_bound_zero th h₀ ch (hinv T S ch hm)
          rw [this] at hb
          cases hb
      · exact hnext resp h

/-- C23: on a worker created with `maxOutStandingMessages = 0`, after any sequence `rs` of
Subscribe, Unsubscribe, Publish and Get requests every mailbox is the empty channel of
capacity 0, a further Publish leaves every mailbox as it is (it is dropped for every
subscriber), a Get on a subscribed `(T, S)` returns `ErrNoNewMessages`, no Get returns a
message, and no response sent while processing `rs` carries a message. -/
theorem capacity_zero_delivers_nothing (rs : List request) (hrs : request.CLOSE_QUEUE ∉ rs) :
    (∀ T S ch, mailbox (stepAll (newTopicHandler 0) rs) T S = some ch →
      ch = { cap := 0, buf := [] }) ∧
    (∀ T v T' S', mailbox (step (stepAll (newTopicHandler 0) rs) (.POST_MSG T v)) T' S'
      = mailbox (stepAll (newTopicHandler 0) rs) T' S') ∧
    (∀ T S ch, mailbox (stepAll (newTopicHandler 0) rs) T S = some ch →
      getMsg (stepAll (newTopicHandler 0) rs) T S
        = some (response.fail Error.ErrNoNewMessages)) ∧
    (∀ T S v, getMsg (stepAll (newTopicHandler 0) rs) T S ≠ some (response.ok v)) ∧
    (∀ resp ∈ responses (newTopicHandler 0) rs, resp.value = none) := by
  have hnew : ∀ T S ch, mailbox (newTopicHandler 0) T S = some ch →
      ch.cap = (newTopicHandler 0).maxOutStandingMessages ∧ ch.buf.length ≤ ch.cap := by
    intro T S ch hm
    rw [mailbox_newTopicHandler] at hm
    cases hm
  have h₀ : (stepAll (newTopicHandler 0) rs).maxOutStandingMessages = 0 :=
    stepAll_maxOutStandingMessages _ rs
  have hzero : ∀ T S ch, mailbox (stepAll (newTopicHandler 0) rs) T S = some ch →
      ch = { cap := 0, buf := [] } := by
    intro T S ch hm
    apply chan_eq_of_bound_zero (stepAll (newTopicHandler 0) rs) h₀
    rw [h₀]
    exact stepAll_preserves_bound (newTopicHandler 0) rs hnew T S ch hm
  refine ⟨hzero, ?_, ?_, ?_, responses_value_none rs (newTopicHandler 0) rfl hnew⟩
  · intro T v T' S'
    by_cases hT : T = T'
    · subst hT
      rw [mailbox_POST_MSG_self]
      cases hm : mailbox (stepAll (newTopicHandler 0) rs) T S' with
      | none => rfl
      | some ch =>
        rw [hzero T S' ch hm]
        rfl
    · exact mailbox_POST_MSG_ne _ S' v hT
  · intro T S ch hm
    exact getMsg_of_mailbox_nil _ T S ch hm (by rw [hzero T S ch hm])
  · intro T S v hv
    obtain ⟨ch, rest, hm, hb⟩ := getMsg_ok_mailbox _ T S v hv
    rw [hzero T S ch hm] at hb
    cases hb

/-- C23 on a capacity-0 worker after a subscription and a publication: the mailbox is empty,
and the Get in the sequence got `ErrNoNewMessages`. -/
theorem capacity_zero_delivers_nothing_witness :
    getMsg (stepAll (newTopicHandler 0)
        [.ADD_SUB "t" "s", .POST_MSG "t" ⟨"m", 1⟩, .GET_MSG "t" "s"]) "t" "s"
      = some (response.fail Error.ErrNoNewMessages) ∧
    (response.fail Error.ErrNoNewMessages).value = none :=
  ⟨(capacity_zero_delivers_nothing
      [.ADD_SUB "t" "s", .POST_MSG "t" ⟨"m", 1⟩, .GET_MSG "t" "s"] (by decide)).2.2.1
      "t" "s" ⟨0, []⟩ (by decide),
   (capacity_zero_delivers_nothing
      [.ADD_SUB "t" "s", .POST_MSG "t" ⟨"m", 1⟩, .GET_MSG "t" "s"] (by decide)).2.2.2.2
      (response.fail Error.ErrNoNewMessages) (by decide)⟩

end PubSubScalable
